import Mathlib

/-!
# Verification of the braille-graph rendering core

Shallow embedding of the `braille-graph` crate's core pipeline
(`src/render/binner.rs`, `src/render/braille.rs`, `src/render/frame.rs`
and the constants / config they use), together with theorems settling the
frozen specification claims.

Modelling conventions:
* `f64` values are modelled as rationals (`ℚ`).  All float values flowing
  through the binner and rasterizer originate from the CSV loader, which
  rejects non-finite values, and the Index strategy uses only comparisons,
  which ℚ models faithfully.  Time-strategy arithmetic is exact in ℚ;
  counterexamples use dyadic inputs on which `f64` arithmetic is also exact.
* `usize` is modelled as `ℕ`; the Rust code's *checked* decrements
  (`if x > 0 { x -= 1 }`) coincide with truncated `ℕ` subtraction.
* Slice indexing `data[i]` is modelled by `getSample` (a `getD` with a
  default); every verified path keeps indices in bounds.  Calls that
  `unwrap` a value that can be `None` (and hence can panic) are modelled
  with `Option`: a `none` result marks a Rust panic.
* Byte buffers are `List ℕ` of byte values.
-/

namespace BrailleGraph

/-- `DataTimeStep` from `src/core/data.rs`: one observation. -/
structure DataTimeStep where
  time : ℚ
  min : ℚ
  max : ℚ
deriving DecidableEq, Repr

/-- `BRAILLE_HORIZONTAL_RESOLUTION` from `src/core/constants.rs`. -/
def HR : ℕ := 2

/-- `BRAILLE_VERTICAL_RESOLUTION` from `src/core/constants.rs`. -/
def VR : ℕ := 4

/-- `MIN_GRAPH_HEIGHT` from `src/core/constants.rs`. -/
def MIN_GRAPH_HEIGHT : ℕ := 7

/-- `MIN_GRAPH_WIDTH` from `src/core/constants.rs`. -/
def MIN_GRAPH_WIDTH : ℕ := 14

/-- `BORDER_WIDTH` from `src/core/constants.rs`. -/
def BORDER_WIDTH : ℕ := 2

/-- `LABEL_GUTTER` from `src/core/constants.rs`. -/
def LABEL_GUTTER : ℕ := 1

/-- `DECIMAL_PRECISION` from `src/core/constants.rs`. -/
def DECIMAL_PRECISION : ℕ := 1

/-- `Config` from `src/core/config.rs` (the fields the render core reads).
`title`/`subtitle` are kept as character lists, `color` as the raw ANSI
escape bytes produced by `AnsiCode::as_str`. -/
structure Config where
  title : List Char
  subtitle : Option (List Char)
  y_min : ℚ
  y_max : ℚ
  x_chars : ℕ
  y_chars : ℕ
  color : List ℕ
  x_range : Option (ℚ × ℚ)
deriving DecidableEq, Repr

/-- `data[i]`: in the Rust source an out-of-bounds access panics; every
verified path below keeps `i` in bounds, so a default is supplied. -/
def getSample (data : List DataTimeStep) (i : ℕ) : DataTimeStep :=
  data.getD i ⟨0, 0, 0⟩

/-- `Strategy` from `src/render/binner.rs`. -/
inductive Strategy
  | Index
  | Time
deriving DecidableEq, Repr

/-- `Bucket` from `src/render/binner.rs`.  The Rust field `end` is a Lean
keyword and is called `stop` here. -/
structure Bucket where
  start : ℕ
  stop : ℕ
  min : ℚ
  max : ℚ
  min_index : ℕ
  max_index : ℕ
deriving DecidableEq, Repr

/-- `Binner` from `src/render/binner.rs` (the stateful engine). -/
structure Binner where
  strat : Strategy
  target : ℕ
  buckets : List Bucket
  cached : Bool
  last_len : ℕ
  last_xrange : Option (ℚ × ℚ)
  prev_first_t : Option ℚ
  prev_last_t : Option ℚ
  win : Option ℚ
deriving DecidableEq, Repr

/-- `Binner::new`. -/
def Binner.new (strat : Strategy) : Binner :=
  { strat := strat, target := 0, buckets := [], cached := false,
    last_len := 0, last_xrange := none, prev_first_t := none,
    prev_last_t := none, win := none }

/-- One iteration of the extremum-tracking loop body shared by
`recompute_extrema` and `build_full_index`: fold a sample at index `j`
into the bucket (strictly smaller min / strictly larger max wins, ties
keep the earlier index). -/
def foldExtremum (data : List DataTimeStep) (acc : Bucket) (j : ℕ) : Bucket :=
  let p := getSample data j
  let acc1 := if p.min < acc.min then { acc with min := p.min, min_index := j } else acc
  if p.max > acc1.max then { acc1 with max := p.max, max_index := j } else acc1

/-- `Binner::recompute_extrema`: rescan `bucket.start..bucket.end`.
Rust initialises the accumulators to `±∞`; for a nonempty range this is
the same as starting from the first element.  For an empty range Rust
leaves the infinite sentinels in place — no verified path reaches that
case, and the model returns the bucket with zeroed extrema there. -/
def recompute_extrema (b : Bucket) (data : List DataTimeStep) : Bucket :=
  match List.range' b.start (b.stop - b.start) with
  | [] => { b with min := 0, max := 0 }
  | i :: rest =>
      let p := getSample data i
      rest.foldl (foldExtremum data)
        { b with min := p.min, max := p.max, min_index := i, max_index := i }

/-- `Binner::emit`: one reduced sample per bucket, timestamp taken from the
sample at the bucket's index midpoint. -/
def Binner.emit (st : Binner) (data : List DataTimeStep) : List DataTimeStep :=
  st.buckets.map fun b =>
    let mid := b.start + (b.stop - b.start) / 2
    { time := (getSample data mid).time, min := b.min, max := b.max }

/-- `Binner::build_full_index`: rebuild all Index-strategy buckets.
Called only with `data.length > target ≥ 1`, so every slice is nonempty
(Rust reads `slice[0]`). -/
def build_full_index (st : Binner) (data : List DataTimeStep) :
    Binner × List DataTimeStep :=
  let n := data.length
  let buckets := (List.range st.target).map fun i =>
    let start := i * n / st.target
    let stop := (i + 1) * n / st.target
    let p0 := getSample data start
    (List.range' (start + 1) (stop - (start + 1))).foldl (foldExtremum data)
      { start := start, stop := stop, min := p0.min, max := p0.max,
        min_index := start, max_index := start }
  let st' := { st with
    buckets := buckets
    cached := true
    last_len := n
    prev_first_t := some (getSample data 0).time
    prev_last_t := some (getSample data (n - 1)).time }
  (st', st'.emit data)

/-- `first_mut` update: apply `f` to the head bucket if any. -/
def updateHead (f : Bucket → Bucket) : List Bucket → List Bucket
  | [] => []
  | b :: rest => f b :: rest

/-- `last_mut().unwrap()` update: apply `f` to the last bucket;
`none` models the Rust panic on an empty bucket list. -/
def updateLast (f : Bucket → Bucket) : List Bucket → Option (List Bucket)
  | [] => none
  | [b] => some [f b]
  | b :: rest => (updateLast f rest).map (b :: ·)

/-- `Binner::bin_index`.  Truncated `ℕ` subtraction models the checked
decrements (`if x > 0 { x -= 1 }`) exactly. -/
def bin_index (st : Binner) (data : List DataTimeStep) :
    Option (Binner × List DataTimeStep) :=
  let n := data.length
  if n = 0 ∨ st.target = 0 ∨ n ≤ st.target then
    some ({ st with
      cached := false
      buckets := []
      last_len := n
      prev_first_t := (data.head?).map (·.time)
      prev_last_t := (data.getLast?).map (·.time) }, data)
  else if ¬ st.cached then
    some (build_full_index st data)
  else
    let scrolled_one : Bool := (n == st.last_len)
      && (match st.prev_first_t with
          | some prev => prev != (getSample data 0).time
          | none => false)
      && (match st.prev_last_t with
          | some prev => prev == (getSample data (n - 2)).time
          | none => false)
    if !scrolled_one then
      some (build_full_index st data)
    else
      let buckets1 := st.buckets.map fun b =>
        { b with start := b.start - 1, stop := b.stop - 1,
                 min_index := b.min_index - 1, max_index := b.max_index - 1 }
      let new_idx := n - 1
      let p_new := getSample data new_idx
      match updateLast (fun last =>
          let last := { last with stop := last.stop + 1 }
          let last := if p_new.min < last.min then
              { last with min := p_new.min, min_index := new_idx } else last
          if p_new.max > last.max then
              { last with max := p_new.max, max_index := new_idx } else last)
        buckets1 with
      | none => none
      | some buckets2 =>
        let buckets3 := updateHead (fun first =>
            if first.min_index < first.start ∨ first.max_index < first.start
            then recompute_extrema first data else first) buckets2
        let st' := { st with
          buckets := buckets3
          prev_first_t := some (getSample data 0).time
          prev_last_t := some (getSample data (n - 1)).time
          last_len := n }
        some (st', st'.emit data)

/-- Length of the inner `while` run of `Binner::build_full_time`: number of
consecutive samples from `idx` whose time is strictly below `hi`. -/
def windowSpan (data : List DataTimeStep) (idx : ℕ) (hi : ℚ) : ℕ :=
  ((data.drop idx).takeWhile (fun p => p.time < hi)).length

/-- One window iteration of `Binner::build_full_time`: consume the samples
of the current window, compute its bucket and its emitted sample.
State: `(window_low, index, buckets, out)`. -/
def buildFullTimeStep (data : List DataTimeStep) (win : ℚ)
    (acc : ℚ × ℕ × List Bucket × List DataTimeStep) (_ : ℕ) :
    ℚ × ℕ × List Bucket × List DataTimeStep :=
  let window_low := acc.1
  let index := acc.2.1
  let buckets := acc.2.2.1
  let out := acc.2.2.2
  let n := data.length
  let window_high := window_low + win
  let start := index
  let span := windowSpan data index window_high
  let b : Bucket :=
    match List.range' index span with
    | [] =>
      -- `!low.is_finite()`: empty window.  Duplicate the previous bucket's
      -- values or fall back to the sample at `index.min(n-1)`; the extremum
      -- indices keep their initial value `start`.
      match out.getLast? with
      | some prev =>
          { start := start, stop := index, min := prev.min, max := prev.max,
            min_index := start, max_index := start }
      | none =>
          let p := getSample data (Nat.min index (n - 1))
          { start := start, stop := index, min := p.min, max := p.max,
            min_index := start, max_index := start }
    | i :: rest =>
      let p := getSample data i
      rest.foldl (foldExtremum data)
        { start := start, stop := index + span, min := p.min, max := p.max,
          min_index := i, max_index := i }
  let o : DataTimeStep :=
    { time := (1/2 : ℚ) * (window_low + window_high), min := b.min, max := b.max }
  (window_high, index + span, buckets ++ [b], out ++ [o])

/-- `Binner::build_full_time`: rebuild all Time-strategy buckets and return
the emitted samples (`out`), whose times are the window midpoints. -/
def build_full_time (st : Binner) (data : List DataTimeStep) (win : ℚ) :
    Binner × List DataTimeStep :=
  let w0 := (getSample data 0).time
  let (_, _, buckets, out) :=
    (List.range st.target).foldl (buildFullTimeStep data win) (w0, 0, [], [])
  ({ st with buckets := buckets }, out)

/-- The inner spillover `loop` of `Binner::bin_time`'s incremental path.
`none` models a Rust panic (`b.end - 1` or `right.start -= 1` underflow);
the fuel is an upper bound on the number of iterations (each iteration
decrements `left.stop`), so fuel exhaustion is unreachable.  This path is
dead code through `Binner::bin` (the cache is reset on every Time call). -/
def spillLoop (data : List DataTimeStep) (hi : ℚ) :
    ℕ → Bucket → Bucket → Option (Bucket × Bucket)
  | 0, _, _ => none
  | fuel + 1, left, right =>
    if left.stop = 0 then none
    else if (getSample data (left.stop - 1)).time ≥ hi then
      if right.start = 0 then none
      else
        let left1 := { left with stop := left.stop - 1 }
        let right1 := { right with start := right.start - 1 }
        let moved_index := right1.start
        let moved_p := getSample data moved_index
        let left2 :=
          if left1.min_index ≥ left1.stop ∨ left1.max_index ≥ left1.stop
          then recompute_extrema left1 data else left1
        let right2 :=
          if moved_p.min < right1.min then
            { right1 with min := moved_p.min, min_index := moved_index } else right1
        let right3 :=
          if moved_p.max > right2.max then
            { right2 with max := moved_p.max, max_index := moved_index } else right2
        spillLoop data hi fuel left2 right3
    else
      some (left, right)

/-- The outer spillover `for` of `Binner::bin_time`'s incremental path:
cascade boundary samples left to right. -/
def spillPass (data : List DataTimeStep) (t_lo_new win : ℚ)
    (buckets : List Bucket) : Option (List Bucket) :=
  (List.range (buckets.length - 1)).foldlM (fun bs i =>
    match bs.get? i, bs.get? (i + 1) with
    | some l, some r =>
      (spillLoop data (t_lo_new + ((i : ℚ) + 1) * win) (l.stop + 1) l r).map
        (fun p => (bs.set i p.1).set (i + 1) p.2)
    | _, _ => none) buckets

/-- The incremental branch of `Binner::bin_time`.  Unreachable through
`Binner::bin`, which resets the cache on every Time-strategy call; kept for
completeness.  The unchecked `b.start -= 1` / `b.end -= 1` decrements
underflow (Rust debug panic) when a bucket starts at index 0 — in
particular for the first bucket — modelled by `none`. -/
def bin_time_incremental (st : Binner) (data : List DataTimeStep) (win : ℚ) :
    Option (Binner × List DataTimeStep) :=
  let n := data.length
  if st.buckets.any (fun b => b.start = 0 || b.stop = 0) then none
  else
    let buckets1 := st.buckets.map fun b =>
      { b with start := b.start - 1, stop := b.stop - 1,
               min_index := b.min_index - 1, max_index := b.max_index - 1 }
    let new_idx := n - 1
    let p_new := getSample data new_idx
    match updateLast (fun last =>
        let last := { last with stop := last.stop + 1 }
        let last := if p_new.min < last.min then
            { last with min := p_new.min, min_index := new_idx } else last
        if p_new.max > last.max then
            { last with max := p_new.max, max_index := new_idx } else last)
      buckets1 with
    | none => none
    | some buckets2 =>
      match data.head?, data.getLast? with
      | some f, some l =>
        match spillPass data f.time win buckets2 with
        | none => none
        | some buckets3 =>
          let buckets4 := updateHead (fun first =>
              if first.min_index < first.start ∨ first.max_index < first.start
              then recompute_extrema first data else first) buckets3
          let st' := { st with
            buckets := buckets4
            prev_first_t := some f.time
            prev_last_t := some l.time
            last_len := n }
          some (st', st'.emit data)
      | _, _ => none

/-- `Binner::bin_time`.  `none` models the Rust panics
(`data.first().unwrap()` on empty data, `self.win.unwrap()`).
In ℚ the division `(t_hi - t_lo) / target` returns 0 for `target = 0`
where `f64` yields `±∞`/NaN; the quotient is unused in that case
(`build_full_time` then runs zero windows). -/
def bin_time (st : Binner) (data : List DataTimeStep) (cfg : Config) :
    Option (Binner × List DataTimeStep) :=
  let n := data.length
  let target := cfg.x_chars * HR
  let need_full := !st.cached || (st.target ≠ target : Bool)
    || (st.last_len ≠ n : Bool) || (cfg.x_range ≠ st.last_xrange : Bool)
  if need_full then
    match data.head?, data.getLast? with
    | some f, some l =>
      let t_lo := f.time
      let t_hi := l.time
      let win := (t_hi - t_lo) / (target : ℚ)
      let st1 := { st with
        cached := true
        target := target
        last_len := n
        last_xrange := cfg.x_range
        win := some win
        prev_first_t := some t_lo
        prev_last_t := some t_hi }
      some (build_full_time st1 data win)
    | _, _ => none
  else
    match st.win with
    | none => none
    | some win => bin_time_incremental st data win

/-- `Binner::bin`, the public entry point.  Note the cache-invalidation
condition compares the binner's own strategy against `Strategy::Index`, so
a Time-strategy binner resets its cache on every call. -/
def Binner.bin (st : Binner) (data : List DataTimeStep) (cfg : Config) :
    Option (Binner × List DataTimeStep) :=
  let target := cfg.x_chars * HR
  let xrange_changed := cfg.x_range ≠ st.last_xrange
  let st1 :=
    if st.strat ≠ Strategy.Index ∨ st.target ≠ target ∨ xrange_changed then
      { st with
        cached := false
        buckets := []
        target := target
        last_xrange := cfg.x_range }
    else st
  match st1.strat with
  | Strategy.Index => bin_index st1 data
  | Strategy.Time => bin_time st1 data cfg

/-!
## Claim C1 — incremental fast path vs. full rebuild

The Index-strategy incremental path is **not** bit-identical to a full
rebuild on the same window: after a detected one-step slide the cached
bucket boundaries are shifted left by one (floored at zero) and only the
last bucket is extended, so the bucket partition differs from the rebuild
partition `[i*n/target, (i+1)*n/target)`; moreover the first bucket's
extremum can stay stale when its extremum sat at index 0 (the
`min_index < start` test cannot fire for `start = 0`).
-/

/-- C1 (counterexample): sliding the window `[(0,10,10),(1,5,5),(2,0,0),(3,7,7)]`
by one step to `[(1,5,5),(2,0,0),(3,7,7),(4,8,8)]` with `x_chars = 1`
(target 2), the incremental fast path emits `[(1,5,10),(3,0,8)]` — the max
`10` belongs to the evicted sample — while a full rebuild on the same
window emits `[(2,0,5),(4,7,8)]`; the two outputs are not bit-identical. -/
theorem C1_counterexample :
    ((((Binner.new Strategy.Index).bin
          [⟨0,10,10⟩, ⟨1,5,5⟩, ⟨2,0,0⟩, ⟨3,7,7⟩] ⟨[], none, 0, 10, 1, 1, [], none⟩).bind
        (fun r => r.1.bin [⟨1,5,5⟩, ⟨2,0,0⟩, ⟨3,7,7⟩, ⟨4,8,8⟩]
          ⟨[], none, 0, 10, 1, 1, [], none⟩)).map (fun r => r.2))
      = some [⟨1,5,10⟩, ⟨3,0,8⟩]
    ∧ (((Binner.new Strategy.Index).bin
          [⟨1,5,5⟩, ⟨2,0,0⟩, ⟨3,7,7⟩, ⟨4,8,8⟩]
          ⟨[], none, 0, 10, 1, 1, [], none⟩).map (fun r => r.2))
      = some [⟨2,0,5⟩, ⟨4,7,8⟩]
    ∧ (some [⟨1,5,10⟩, ⟨3,0,8⟩] : Option (List DataTimeStep))
      ≠ some [⟨2,0,5⟩, ⟨4,7,8⟩] :=
  ⟨by decide, by decide, by decide⟩

/-- C1 (amended): for the Time strategy the equivalence holds vacuously:
`Binner::bin` resets its cache on every Time-strategy call (the
invalidation test compares the binner's own strategy with
`Strategy::Index`), so the incremental path is unreachable and every call
— including each step of a sliding-window call sequence — behaves exactly
like a full rebuild on the current window contents, state included.  For
the Index strategy bit-identity fails (see the counterexample). -/
theorem C1_time_always_full_rebuild (st : Binner) (data : List DataTimeStep)
    (cfg : Config) (h : st.strat = Strategy.Time) :
    st.bin data cfg = (Binner.new Strategy.Time).bin data cfg := by
  obtain ⟨strat, target, buckets, cached, last_len, lxr, pft, plt, win⟩ := st
  simp only at h
  subst h
  rfl

/-- C1 (witness): the amended theorem applied to a Time binner carrying a
stale cache: its output coincides with a fresh full rebuild. -/
theorem C1_time_always_full_rebuild_witness :
    ({ Binner.new Strategy.Time with
        cached := true
        target := 2
        last_len := 2
        win := some 5 } : Binner).strat = Strategy.Time
    ∧ ({ Binner.new Strategy.Time with
          cached := true
          target := 2
          last_len := 2
          win := some 5 } : Binner).bin [⟨0,1,1⟩, ⟨10,2,2⟩]
        ⟨[], none, 0, 10, 1, 1, [], none⟩
      = (Binner.new Strategy.Time).bin [⟨0,1,1⟩, ⟨10,2,2⟩]
        ⟨[], none, 0, 10, 1, 1, [], none⟩ :=
  ⟨rfl, C1_time_always_full_rebuild _ _ _ rfl⟩

/-!
## Helper lemmas: the Index full rebuild computes true slice extrema
-/

/-- Spec-side definition: the true minimum of the `min` fields over the
index slice `[s, e)` of the data. -/
def sliceMin (data : List DataTimeStep) (s e : ℕ) : Option ℚ :=
  (((data.drop s).take (e - s)).map (fun p => p.min)).min?

/-- Spec-side definition: the true maximum of the `max` fields over the
index slice `[s, e)` of the data. -/
def sliceMax (data : List DataTimeStep) (s e : ℕ) : Option ℚ :=
  (((data.drop s).take (e - s)).map (fun p => p.max)).max?

theorem foldExtremum_start (data : List DataTimeStep) (js : List ℕ) (b : Bucket) :
    (js.foldl (foldExtremum data) b).start = b.start := by
  induction js generalizing b with
  | nil => rfl
  | cons j js ih =>
    rw [List.foldl_cons, ih]
    unfold foldExtremum
    dsimp only
    split <;> split <;> rfl

theorem foldExtremum_stop (data : List DataTimeStep) (js : List ℕ) (b : Bucket) :
    (js.foldl (foldExtremum data) b).stop = b.stop := by
  induction js generalizing b with
  | nil => rfl
  | cons j js ih =>
    rw [List.foldl_cons, ih]
    unfold foldExtremum
    dsimp only
    split <;> split <;> rfl

theorem foldExtremum_one_min (data : List DataTimeStep) (b : Bucket) (j : ℕ) :
    (foldExtremum data b j).min = min b.min (getSample data j).min := by
  unfold foldExtremum
  rcases lt_or_le (getSample data j).min b.min with h1 | h1
  · rcases lt_or_le b.max (getSample data j).max with h2 | h2
    · simp [h1, h2, min_eq_right h1.le]
    · simp [h1, not_lt.mpr h2, min_eq_right h1.le]
  · rcases lt_or_le b.max (getSample data j).max with h2 | h2
    · simp [not_lt.mpr h1, h2, min_eq_left h1]
    · simp [not_lt.mpr h1, not_lt.mpr h2, min_eq_left h1]

theorem foldExtremum_one_max (data : List DataTimeStep) (b : Bucket) (j : ℕ) :
    (foldExtremum data b j).max = max b.max (getSample data j).max := by
  unfold foldExtremum
  rcases lt_or_le (getSample data j).min b.min with h1 | h1
  · rcases lt_or_le b.max (getSample data j).max with h2 | h2
    · simp [h1, h2, max_eq_right h2.le]
    · simp [h1, not_lt.mpr h2, max_eq_left h2]
  · rcases lt_or_le b.max (getSample data j).max with h2 | h2
    · simp [not_lt.mpr h1, h2, max_eq_right h2.le]
    · simp [not_lt.mpr h1, not_lt.mpr h2, max_eq_left h2]

theorem foldExtremum_min (data : List DataTimeStep) (js : List ℕ) (b : Bucket) :
    (js.foldl (foldExtremum data) b).min
      = js.foldl (fun m j => min m (getSample data j).min) b.min := by
  induction js generalizing b with
  | nil => rfl
  | cons j js ih =>
    rw [List.foldl_cons, List.foldl_cons, ih, foldExtremum_one_min]

theorem foldExtremum_max (data : List DataTimeStep) (js : List ℕ) (b : Bucket) :
    (js.foldl (foldExtremum data) b).max
      = js.foldl (fun m j => max m (getSample data j).max) b.max := by
  induction js generalizing b with
  | nil => rfl
  | cons j js ih =>
    rw [List.foldl_cons, List.foldl_cons, ih, foldExtremum_one_max]

theorem min?_eq_foldl (x : ℚ) (xs : List ℚ) :
    (x :: xs).min? = some (xs.foldl min x) := by
  induction xs generalizing x with
  | nil => rfl
  | cons y ys ih =>
    rw [List.foldl_cons, ← ih (min x y), List.min?_cons, List.min?_cons]
    cases h : ys.min? <;> simp [h, min_assoc]

theorem max?_eq_foldl (x : ℚ) (xs : List ℚ) :
    (x :: xs).max? = some (xs.foldl max x) := by
  induction xs generalizing x with
  | nil => rfl
  | cons y ys ih =>
    rw [List.foldl_cons, ← ih (max x y), List.max?_cons, List.max?_cons]
    cases h : ys.max? <;> simp [h, max_assoc]

theorem slice_eq_map_range' (data : List DataTimeStep) (s k : ℕ)
    (h : s + k ≤ data.length) :
    (data.drop s).take k = (List.range' s k).map (getSample data) := by
  induction k generalizing s with
  | zero => simp
  | succ k ih =>
    have hs : s < data.length := by omega
    rw [List.range'_succ, List.map_cons, ← ih (s + 1) (by omega)]
    rw [List.drop_eq_getElem_cons hs, List.take_succ_cons]
    congr 1
    unfold getSample
    rw [List.getD_eq_getElem?_getD, List.getElem?_eq_getElem hs]
    rfl

theorem index_slice_lt (n t i : ℕ) (ht : 0 < t) (htn : t ≤ n) :
    i * n / t < (i + 1) * n / t := by
  have h1 : (i * n + t) / t ≤ (i + 1) * n / t := by
    apply Nat.div_le_div_right
    have : i * n + n = (i + 1) * n := by ring
    omega
  rw [Nat.add_div_right _ ht] at h1
  omega

theorem index_slice_stop_le (n t i : ℕ) (ht : 0 < t) (hi : i < t) :
    (i + 1) * n / t ≤ n := by
  have h1 : (i + 1) * n ≤ t * n := Nat.mul_le_mul_right n hi
  have h2 : (i + 1) * n / t ≤ t * n / t := Nat.div_le_div_right h1
  rwa [Nat.mul_div_cancel_left n ht] at h2

/-- The Index-strategy slice boundaries `i*n/t` tile `[0, n)` exactly once:
every sample index `j < n` lies in exactly one slice. -/
theorem index_slices_partition (n t : ℕ) (ht : 0 < t) (htn : t ≤ n)
    (j : ℕ) (hj : j < n) :
    ∃! i : ℕ, i < t ∧ i * n / t ≤ j ∧ j < (i + 1) * n / t := by
  have hn : 0 < n := lt_of_lt_of_le ht htn
  have key : ∀ i : ℕ, (i * n / t ≤ j ∧ j < (i + 1) * n / t)
      ↔ (i * n < (j + 1) * t ∧ (j + 1) * t ≤ (i + 1) * n) := by
    intro i
    constructor
    · rintro ⟨h1, h2⟩
      constructor
      · have : i * n / t < j + 1 := by omega
        exact (Nat.div_lt_iff_lt_mul ht).mp this
      · exact (Nat.le_div_iff_mul_le ht).mp (by omega)
    · rintro ⟨h1, h2⟩
      constructor
      · have : i * n / t < j + 1 := (Nat.div_lt_iff_lt_mul ht).mpr h1
        omega
      · have : j + 1 ≤ (i + 1) * n / t := (Nat.le_div_iff_mul_le ht).mpr h2
        omega
  obtain ⟨m, hm⟩ : ∃ m, (j + 1) * t = m := ⟨_, rfl⟩
  simp only [hm] at key
  have hm1 : 1 ≤ m := hm ▸ Nat.mul_pos (Nat.succ_pos j) ht
  have hmn : m ≤ n * t := by
    rw [← hm]
    calc (j + 1) * t ≤ n * t := Nat.mul_le_mul_right t hj
    _ = n * t := rfl
  obtain ⟨q, hq⟩ : ∃ q, (m - 1) / n = q := ⟨_, rfl⟩
  obtain ⟨r, hr⟩ : ∃ r, (m - 1) % n = r := ⟨_, rfl⟩
  have hd := Nat.div_add_mod (m - 1) n
  have hmod := Nat.mod_lt (m - 1) hn
  rw [hq, hr] at hd
  rw [hr] at hmod
  have hd2 : q * n + r = m - 1 := by rw [Nat.mul_comm q n]; exact hd
  refine ⟨q, ⟨?_, ?_⟩, ?_⟩
  · by_contra hqt
    push_neg at hqt
    have h1 : t * n ≤ q * n := Nat.mul_le_mul_right n hqt
    have h3 : n * t = t * n := Nat.mul_comm n t
    omega
  · rw [key]
    have e1 : (q + 1) * n = q * n + n := by ring
    exact ⟨by omega, by omega⟩
  · rintro i ⟨hit, hcond⟩
    rw [key] at hcond
    obtain ⟨h1, h2⟩ := hcond
    have e1 : (i + 1) * n = i * n + n := by ring
    have e2 : (q + 1) * n = q * n + n := by ring
    rcases Nat.lt_trichotomy i q with h | h | h
    · have h3 : (i + 1) * n ≤ q * n := Nat.mul_le_mul_right n h
      omega
    · exact h
    · have h3 : (q + 1) * n ≤ i * n := Nat.mul_le_mul_right n h
      omega

/-- Bucket `i` of an Index full rebuild: boundaries `[i*n/t, (i+1)*n/t)`
and true slice extrema. -/
theorem build_full_index_bucket (st : Binner) (data : List DataTimeStep)
    (ht : 0 < st.target) (hn : st.target < data.length)
    (i : ℕ) (hi : i < st.target) :
    ∃ b : Bucket,
      ((build_full_index st data).1.buckets)[i]? = some b
      ∧ b.start = i * data.length / st.target
      ∧ b.stop = (i + 1) * data.length / st.target
      ∧ some b.min = sliceMin data b.start b.stop
      ∧ some b.max = sliceMax data b.start b.stop := by
  set n := data.length with hdefn
  set t := st.target with hdeft
  set start := i * n / t with hdefstart
  set stop := (i + 1) * n / t with hdefstop
  have hss : start < stop := index_slice_lt n t i ht (le_of_lt hn)
  have hstopn : stop ≤ n := index_slice_stop_le n t i ht hi
  have hget : ((build_full_index st data).1.buckets)[i]?
      = some ((List.range' (start + 1) (stop - (start + 1))).foldl (foldExtremum data)
        { start := start, stop := stop,
          min := (getSample data start).min, max := (getSample data start).max,
          min_index := start, max_index := start }) := by
    unfold build_full_index
    dsimp only
    rw [List.getElem?_map, List.getElem?_range hi]
    rfl
  refine ⟨_, hget, ?_, ?_, ?_, ?_⟩
  · rw [foldExtremum_start]
  · rw [foldExtremum_stop]
  · rw [foldExtremum_start, foldExtremum_stop, foldExtremum_min]
    unfold sliceMin
    rw [slice_eq_map_range' data start (stop - start) (by omega)]
    have hk : stop - start = (stop - (start + 1)) + 1 := by omega
    rw [hk, List.range'_succ, List.map_cons, List.map_cons, min?_eq_foldl,
      List.foldl_map, List.foldl_map]
  · rw [foldExtremum_start, foldExtremum_stop, foldExtremum_max]
    unfold sliceMax
    rw [slice_eq_map_range' data start (stop - start) (by omega)]
    have hk : stop - start = (stop - (start + 1)) + 1 := by omega
    rw [hk, List.range'_succ, List.map_cons, List.map_cons, max?_eq_foldl,
      List.foldl_map, List.foldl_map]

/-- A fresh Index-strategy binner whose target differs from the config's
performs a full rebuild. -/
theorem bin_fresh_index_full (data : List DataTimeStep) (cfg : Config)
    (ht : 0 < cfg.x_chars * HR) (hn : cfg.x_chars * HR < data.length) :
    (Binner.new Strategy.Index).bin data cfg
      = some (build_full_index
          { strat := Strategy.Index, target := cfg.x_chars * HR, buckets := [],
            cached := false, last_len := 0, last_xrange := cfg.x_range,
            prev_first_t := none, prev_last_t := none, win := none } data) := by
  unfold Binner.bin
  dsimp only [Binner.new]
  rw [if_pos (Or.inr (Or.inl (by omega)))]
  show bin_index _ data = _
  unfold bin_index
  dsimp only
  rw [if_neg (by push_neg; omega)]
  rw [if_pos (by simp)]

/-- A fresh Time-strategy binner performs a full rebuild. -/
theorem bin_fresh_time_full (data : List DataTimeStep) (cfg : Config)
    (f l : DataTimeStep) (hf : data.head? = some f) (hl : data.getLast? = some l) :
    (Binner.new Strategy.Time).bin data cfg
      = some (build_full_time
          { strat := Strategy.Time, target := cfg.x_chars * HR, buckets := [],
            cached := true, last_len := data.length, last_xrange := cfg.x_range,
            prev_first_t := some f.time, prev_last_t := some l.time,
            win := some ((l.time - f.time) / ((cfg.x_chars * HR : ℕ) : ℚ)) }
          data ((l.time - f.time) / ((cfg.x_chars * HR : ℕ) : ℚ))) := by
  unfold Binner.bin
  dsimp only [Binner.new]
  rw [if_pos (Or.inl (by simp))]
  show bin_time _ data cfg = _
  unfold bin_time
  dsimp only
  rw [if_pos (by simp)]
  rw [hf, hl]

/-- Each window iteration of `build_full_time` appends exactly one bucket
and one output sample. -/
theorem buildFullTime_fold_len (data : List DataTimeStep) (win : ℚ) (k : ℕ)
    (acc : ℚ × ℕ × List Bucket × List DataTimeStep) :
    (((List.range k).foldl (buildFullTimeStep data win) acc).2.2.1.length
        = acc.2.2.1.length + k)
    ∧ (((List.range k).foldl (buildFullTimeStep data win) acc).2.2.2.length
        = acc.2.2.2.length + k) := by
  induction k generalizing acc with
  | zero => simp
  | succ k ih =>
    rw [List.range_succ, List.foldl_append]
    obtain ⟨ih1, ih2⟩ := ih acc
    set mid := (List.range k).foldl (buildFullTimeStep data win) acc
    obtain ⟨w, idx, bs, os⟩ := mid
    simp only [List.foldl_cons, List.foldl_nil]
    unfold buildFullTimeStep
    dsimp only
    constructor
    · simp only [List.length_append, List.length_cons, List.length_nil]
      simp at ih1
      omega
    · simp only [List.length_append, List.length_cons, List.length_nil]
      simp at ih2
      omega

theorem build_full_time_buckets_len (st : Binner) (data : List DataTimeStep)
    (win : ℚ) :
    (build_full_time st data win).1.buckets.length = st.target := by
  unfold build_full_time
  have h := buildFullTime_fold_len data win st.target ((getSample data 0).time, 0, [], [])
  simp only [List.length_nil] at h
  simp [h.1]

theorem build_full_time_out_len (st : Binner) (data : List DataTimeStep)
    (win : ℚ) :
    (build_full_time st data win).2.length = st.target := by
  unfold build_full_time
  have h := buildFullTime_fold_len data win st.target ((getSample data 0).time, 0, [], [])
  simp only [List.length_nil] at h
  simp [h.2]

/-- When the sample count does not exceed the target, an Index-strategy
binner returns the input unchanged (the early-return branch of
`bin_index`). -/
theorem bin_index_small (st : Binner) (data : List DataTimeStep) (cfg : Config)
    (hstrat : st.strat = Strategy.Index) (hle : data.length ≤ cfg.x_chars * HR) :
    ∃ st', st.bin data cfg = some (st', data) := by
  unfold Binner.bin
  dsimp only
  by_cases hc : st.strat ≠ Strategy.Index ∨ st.target ≠ cfg.x_chars * HR
      ∨ cfg.x_range ≠ st.last_xrange
  · rw [if_pos hc]
    dsimp only
    rw [hstrat]
    unfold bin_index
    rw [if_pos (Or.inr (Or.inr hle))]
    exact ⟨_, rfl⟩
  · rw [if_neg hc]
    push_neg at hc
    rw [hstrat]
    unfold bin_index
    rw [if_pos (Or.inr (Or.inr (hc.2.1 ▸ hle)))]
    exact ⟨_, rfl⟩

/-!
## Claims C2, C3, C8 — contracts of `Binner::bin`
-/

/-- C2 (counterexample): under the Time strategy with samples at times
`0,1,2,3` and `x_chars = 1` (target 2, so `n = 4 > 2`), `Binner::bin`
builds buckets covering index ranges `[0,2)` and `[2,3)`: the returned
ranges do not partition `[0,n) = [0,4)` — index 3 is covered by no
bucket — refuting the partition claim for arbitrary configurations. -/
theorem C2_counterexample :
    ((Binner.new Strategy.Time).bin [⟨0,0,0⟩, ⟨1,1,1⟩, ⟨2,2,2⟩, ⟨3,3,3⟩]
        ⟨[], none, 0, 10, 1, 1, [], none⟩).map
      (fun r => r.1.buckets.map (fun b => (b.start, b.stop)))
      = some [(0,2), (2,3)]
    ∧ ([⟨0,0,0⟩, ⟨1,1,1⟩, ⟨2,2,2⟩, (⟨3,3,3⟩ : DataTimeStep)] : List DataTimeStep).length = 4
    ∧ (∀ p ∈ [(0,2), (2,3)], ¬((p : ℕ × ℕ).1 ≤ 3 ∧ 3 < p.2)) :=
  ⟨by norm_num [Binner.bin, Binner.new, bin_time, build_full_time, buildFullTimeStep,
    windowSpan, getSample, HR, List.range_succ, List.range', foldExtremum, Binner.emit],
   by decide, by decide⟩

/-- C2 (amended): restricted to the **Index** strategy (here: a fresh
binner, which performs a full rebuild): for `t = x_chars*2 ≥ 1` and
`n > t`, `Binner::bin` returns exactly `t` buckets with boundaries
`slice_i = [i*n/t, (i+1)*n/t)`, these slices partition `[0,n)` exactly
once, and each bucket's min/max is the true extremum over its slice.
Under the Time strategy the returned buckets need not cover `[0,n)`
(see the counterexample). -/
theorem C2_index_full_rebuild (data : List DataTimeStep) (cfg : Config)
    (ht : 0 < cfg.x_chars * HR) (hn : cfg.x_chars * HR < data.length) :
    ∃ st' out, (Binner.new Strategy.Index).bin data cfg = some (st', out)
      ∧ st'.buckets.length = cfg.x_chars * HR
      ∧ out.length = cfg.x_chars * HR
      ∧ (∀ i, i < cfg.x_chars * HR → ∃ b : Bucket,
          st'.buckets[i]? = some b
          ∧ b.start = i * data.length / (cfg.x_chars * HR)
          ∧ b.stop = (i + 1) * data.length / (cfg.x_chars * HR)
          ∧ some b.min = sliceMin data b.start b.stop
          ∧ some b.max = sliceMax data b.start b.stop)
      ∧ (∀ j, j < data.length → ∃! i : ℕ,
          i < cfg.x_chars * HR
          ∧ i * data.length / (cfg.x_chars * HR) ≤ j
          ∧ j < (i + 1) * data.length / (cfg.x_chars * HR)) := by
  refine ⟨_, _, bin_fresh_index_full data cfg ht hn, ?_, ?_, ?_, ?_⟩
  · simp [build_full_index]
  · simp [build_full_index, Binner.emit]
  · intro i hi
    exact build_full_index_bucket _ data ht hn i hi
  · intro j hj
    exact index_slices_partition data.length (cfg.x_chars * HR) ht (le_of_lt hn) j hj

/-- C8 (counterexample): under the Time strategy (full rebuild, the only
path reachable through `bin`), the emitted sample's `time` is the
synthesised window midpoint `0.5*(window_low+window_high)`, not a literal
input timestamp: for input times `0,1,2` with target 2 the output times
are `1/2` and `3/2`, neither of which occurs in the input. -/
theorem C8_counterexample :
    ((Binner.new Strategy.Time).bin [⟨0,0,0⟩, ⟨1,1,1⟩, ⟨2,2,2⟩]
        ⟨[], none, 0, 10, 1, 1, [], none⟩).map
      (fun r => r.2.map (fun p => p.time))
      = some [1/2, 3/2]
    ∧ ((1 : ℚ)/2) ∉ [(0 : ℚ), 1, 2]
    ∧ ((3 : ℚ)/2) ∉ [(0 : ℚ), 1, 2] :=
  ⟨by norm_num [Binner.bin, Binner.new, bin_time, build_full_time, buildFullTimeStep,
    windowSpan, getSample, HR, List.range_succ, List.range', foldExtremum, Binner.emit],
   by norm_num, by norm_num⟩

/-- C8 (amended): for the **Index** strategy (full rebuild), each emitted
sample's `time` is the literal timestamp of the input sample at the
bucket's index midpoint `start + (end - start)/2` — in particular it
occurs among the input timestamps — and its min/max are the bucket's
envelope.  The Time strategy instead synthesises window-midpoint times
(see the counterexample). -/
theorem C8_index_emission (data : List DataTimeStep) (cfg : Config)
    (ht : 0 < cfg.x_chars * HR) (hn : cfg.x_chars * HR < data.length) :
    ∃ st' out, (Binner.new Strategy.Index).bin data cfg = some (st', out)
      ∧ out.length = st'.buckets.length
      ∧ (∀ (i : ℕ) (b : Bucket), st'.buckets[i]? = some b →
          out[i]? = some ({ time := (getSample data (b.start + (b.stop - b.start) / 2)).time,
                            min := b.min, max := b.max } : DataTimeStep)
          ∧ (getSample data (b.start + (b.stop - b.start) / 2)).time
              ∈ data.map (fun p => p.time)) := by
  refine ⟨_, _, bin_fresh_index_full data cfg ht hn, ?_, ?_⟩
  · simp [build_full_index, Binner.emit]
  · intro i b hb
    have hi : i < cfg.x_chars * HR := by
      obtain ⟨hlt, -⟩ := List.getElem?_eq_some_iff.mp hb
      simpa [build_full_index] using hlt
    obtain ⟨b', hb', hstart, hstop, -, -⟩ :=
      build_full_index_bucket
        { strat := Strategy.Index, target := cfg.x_chars * HR, buckets := [],
          cached := false, last_len := 0, last_xrange := cfg.x_range,
          prev_first_t := none, prev_last_t := none, win := none }
        data ht hn i hi
    have hsome : (some b : Option Bucket) = some b' := by
      rw [← hb]
      exact hb'
    have hbb : b = b' := (Option.some.injEq _ _).mp hsome
    subst hbb
    have hmid : b.start + (b.stop - b.start) / 2 < data.length := by
      have h1 : b.start < b.stop := hstart ▸ hstop ▸
        index_slice_lt data.length (cfg.x_chars * HR) i ht (le_of_lt hn)
      have h2 : b.stop ≤ data.length := hstop ▸
        index_slice_stop_le data.length (cfg.x_chars * HR) i ht hi
      omega
    constructor
    · show ((build_full_index
          { strat := Strategy.Index, target := cfg.x_chars * HR, buckets := [],
            cached := false, last_len := 0, last_xrange := cfg.x_range,
            prev_first_t := none, prev_last_t := none, win := none }
          data).1.emit data)[i]? = _
      unfold Binner.emit
      rw [List.getElem?_map]
      rw [show ((build_full_index
          { strat := Strategy.Index, target := cfg.x_chars * HR, buckets := [],
            cached := false, last_len := 0, last_xrange := cfg.x_range,
            prev_first_t := none, prev_last_t := none, win := none }
          data).1.buckets)[i]? = some b from hb]
      rfl
    · have hgs : getSample data (b.start + (b.stop - b.start) / 2)
          = data.get ⟨b.start + (b.stop - b.start) / 2, hmid⟩ := by
        unfold getSample
        rw [List.getD_eq_getElem?_getD, List.getElem?_eq_getElem hmid]
        rfl
      rw [hgs]
      exact List.mem_map.mpr ⟨_, List.get_mem data _ hmid, rfl⟩

/-- C3 (counterexample): under the Time strategy `bin` does **not** return
the input unchanged when `n ≤ target`: with a single sample `(0,5,5)` and
`x_chars = 1` (target 2), it returns **two** reduced samples.

(The input is not returned unchanged, although the length bound `≤ target`
still holds here.) -/
theorem C3_counterexample :
    ((Binner.new Strategy.Time).bin [⟨0,5,5⟩]
        ⟨[], none, 0, 10, 1, 1, [], none⟩).map (fun r => r.2)
      = some [⟨0,5,5⟩, ⟨0,5,5⟩]
    ∧ ([(⟨0,5,5⟩ : DataTimeStep)] : List DataTimeStep).length ≤ 1 * HR
    ∧ (some [⟨0,5,5⟩, ⟨0,5,5⟩] : Option (List DataTimeStep)) ≠ some [⟨0,5,5⟩] :=
  ⟨by norm_num [Binner.bin, Binner.new, bin_time, build_full_time, buildFullTimeStep,
    windowSpan, getSample, HR, List.range_succ, List.range', foldExtremum, Binner.emit],
   by decide, by decide⟩

/-- C3 (amended): the size contract holds per strategy as follows.
**Index**: whenever `n ≤ target` the input is returned unchanged (any
binner state), and a fresh binner with `target ≥ 1` returns at most
`target` samples.  **Time**: on nonempty input a fresh binner returns
exactly `target` reduced samples (hence at most `target`), but *not* the
input unchanged (see the counterexample).  For `target = 0` (degenerate
`x_chars = 0`) the Index strategy returns the input unchanged even when
`n > 0`, so the bound needs `target ≥ 1`. -/
theorem C3_bin_length_contract (data : List DataTimeStep) (cfg : Config) :
    (∀ st : Binner, st.strat = Strategy.Index → data.length ≤ cfg.x_chars * HR →
        (st.bin data cfg).map (fun r => r.2) = some data)
    ∧ (0 < cfg.x_chars * HR →
        ∀ r, (Binner.new Strategy.Index).bin data cfg = some r →
          r.2.length ≤ cfg.x_chars * HR)
    ∧ (data ≠ [] →
        ∀ r, (Binner.new Strategy.Time).bin data cfg = some r →
          r.2.length = cfg.x_chars * HR) := by
  refine ⟨?_, ?_, ?_⟩
  · intro st hstrat hle
    obtain ⟨st', heq⟩ := bin_index_small st data cfg hstrat hle
    rw [heq]
    rfl
  · intro ht r hr
    by_cases hle : data.length ≤ cfg.x_chars * HR
    · obtain ⟨st', heq⟩ := bin_index_small (Binner.new Strategy.Index) data cfg rfl hle
      rw [heq] at hr
      injection hr with h
      subst h
      simpa using hle
    · push_neg at hle
      rw [bin_fresh_index_full data cfg ht hle] at hr
      injection hr with h
      subst h
      simp [build_full_index, Binner.emit]
  · intro hne r hr
    have hf : ∃ f, data.head? = some f := by
      cases data with
      | nil => exact absurd rfl hne
      | cons d ds => exact ⟨d, rfl⟩
    have hl : ∃ l, data.getLast? = some l := by
      cases data with
      | nil => exact absurd rfl hne
      | cons d ds => exact ⟨(d :: ds).getLast (by simp), List.getLast?_eq_getLast _ _⟩
    obtain ⟨f, hf⟩ := hf
    obtain ⟨l, hl⟩ := hl
    rw [bin_fresh_time_full data cfg f l hf hl] at hr
    injection hr with h
    subst h
    exact build_full_time_out_len _ data _

/-- C2 (witness): the amended theorem at samples `(0,1,1),(1,2,2),(2,3,3)`
with `x_chars = 1` (target 2, `n = 3 > 2`). -/
theorem C2_index_full_rebuild_witness :
    0 < 2 ∧ 2 < 3 ∧
    (∃ st' out, (Binner.new Strategy.Index).bin
        [⟨0,1,1⟩, ⟨1,2,2⟩, ⟨2,3,3⟩] ⟨[], none, 0, 10, 1, 1, [], none⟩ = some (st', out)
      ∧ st'.buckets.length = 2
      ∧ out.length = 2
      ∧ (∀ i, i < 2 → ∃ b : Bucket,
          st'.buckets[i]? = some b
          ∧ b.start = i * 3 / 2
          ∧ b.stop = (i + 1) * 3 / 2
          ∧ some b.min = sliceMin [⟨0,1,1⟩, ⟨1,2,2⟩, ⟨2,3,3⟩] b.start b.stop
          ∧ some b.max = sliceMax [⟨0,1,1⟩, ⟨1,2,2⟩, ⟨2,3,3⟩] b.start b.stop)
      ∧ (∀ j, j < 3 → ∃! i : ℕ, i < 2 ∧ i * 3 / 2 ≤ j ∧ j < (i + 1) * 3 / 2)) :=
  ⟨by decide, by decide,
   C2_index_full_rebuild [⟨0,1,1⟩, ⟨1,2,2⟩, ⟨2,3,3⟩]
     ⟨[], none, 0, 10, 1, 1, [], none⟩ (by decide) (by decide)⟩

/-- C3 (witness): the amended contract applied to a two-sample input with
`x_chars = 1` (so `n = 2 ≤ target = 2`): the Index strategy returns the
input unchanged. -/
theorem C3_bin_length_contract_witness :
    (Binner.new Strategy.Index).strat = Strategy.Index
    ∧ ([⟨0,1,1⟩, (⟨1,2,2⟩ : DataTimeStep)] : List DataTimeStep).length ≤ 1 * HR
    ∧ ((Binner.new Strategy.Index).bin [⟨0,1,1⟩, ⟨1,2,2⟩]
        ⟨[], none, 0, 10, 1, 1, [], none⟩).map (fun r => r.2)
      = some [⟨0,1,1⟩, ⟨1,2,2⟩] :=
  ⟨rfl, by decide,
   (C3_bin_length_contract [⟨0,1,1⟩, ⟨1,2,2⟩] ⟨[], none, 0, 10, 1, 1, [], none⟩).1
     (Binner.new Strategy.Index) rfl (by decide)⟩

/-- C8 (witness): the amended emission theorem at samples
`(0,1,1),(1,2,2),(2,3,3)` with `x_chars = 1`. -/
theorem C8_index_emission_witness :
    0 < 2 ∧ 2 < 3 ∧
    (∃ st' out, (Binner.new Strategy.Index).bin
        [⟨0,1,1⟩, ⟨1,2,2⟩, ⟨2,3,3⟩] ⟨[], none, 0, 10, 1, 1, [], none⟩ = some (st', out)
      ∧ out.length = st'.buckets.length
      ∧ (∀ (i : ℕ) (b : Bucket), st'.buckets[i]? = some b →
          out[i]? = some ({ time := (getSample [⟨0,1,1⟩, ⟨1,2,2⟩, ⟨2,3,3⟩]
                              (b.start + (b.stop - b.start) / 2)).time,
                            min := b.min, max := b.max } : DataTimeStep)
          ∧ (getSample [⟨0,1,1⟩, ⟨1,2,2⟩, ⟨2,3,3⟩]
              (b.start + (b.stop - b.start) / 2)).time
              ∈ ([⟨0,1,1⟩, ⟨1,2,2⟩, ⟨2,3,3⟩] : List DataTimeStep).map (fun p => p.time))) :=
  ⟨by decide, by decide,
   C8_index_emission [⟨0,1,1⟩, ⟨1,2,2⟩, ⟨2,3,3⟩]
     ⟨[], none, 0, 10, 1, 1, [], none⟩ (by decide) (by decide)⟩

/-!
## Rasterizer (`src/render/braille.rs`)
-/

/-- `GraphTimeStep` from `src/render/braille.rs`: pixel-space min/max for
one half-column. -/
structure GraphTimeStep where
  min : ℕ
  max : ℕ
deriving DecidableEq, Repr

/-- `BraillePlot` from `src/render/braille.rs`. -/
structure BraillePlot where
  steps : List GraphTimeStep
deriving DecidableEq, Repr

/-- `GraphError` from `src/core/error.rs` (the constructors the render
core produces). -/
inductive GraphError
  | EmptyData
  | GraphTooSmall (want_w want_h got_w got_h : ℕ)
deriving DecidableEq, Repr

/-- Rust `f64::round`: round half away from zero. -/
def rustRound (x : ℚ) : ℤ := if 0 ≤ x then ⌊x + 1/2⌋ else ⌈x - 1/2⌉

/-- The closure `map` in `preprocess_to_braille`:
`row = (vert_px-1) - round(clamp((y-y_min)/(y_max-y_min),0,1)*(vert_px-1))`.
`f64::clamp(lo,hi)` is `min (max · lo) hi`; the `as usize` cast truncates
toward zero (never negative here since the clamped ratio is ≥ 0). -/
def mapY (cfg : Config) (y : ℚ) : ℕ :=
  let vert_px := cfg.y_chars * VR
  let y_span := cfg.y_max - cfg.y_min
  let r := (min (max ((y - cfg.y_min) / y_span) 0) 1) * (((vert_px - 1 : ℕ)) : ℚ)
  (vert_px - 1) - (rustRound r).toNat

/-- The per-sample body of the `map` in `preprocess_to_braille`: rasterize
`min`/`max` to pixel rows and swap so that `min ≤ max`. -/
def rasterStep (cfg : Config) (p : DataTimeStep) : GraphTimeStep :=
  let lo := mapY cfg p.min
  let hi := mapY cfg p.max
  if lo > hi then { min := hi, max := lo } else { min := lo, max := hi }

/-- The bridging pass of `preprocess_to_braille`: `bridged` keeps
`steps[0]` and, for each `i` in `1..len`, pushes the envelope of the
*original* steps at `i-1` and `i` (`min(prev.min, curr.min+1)`,
`max(prev.max, curr.max-1)`, the latter a `saturating_sub`).  The
iteration over `1..len` is phrased with `k = i - 1` over `0..len-1`. -/
def bridgeSteps (steps : List GraphTimeStep) : List GraphTimeStep :=
  match steps with
  | [] => steps
  | s0 :: _ =>
    s0 :: (List.range (steps.length - 1)).map (fun k =>
      let prev := steps.getD k ⟨0, 0⟩
      let curr := steps.getD (k + 1) ⟨0, 0⟩
      ({ min := Nat.min prev.min (curr.min + 1),
         max := Nat.max prev.max (curr.max - 1) } : GraphTimeStep))

/-- `preprocess_to_braille` from `src/render/braille.rs`. -/
def preprocess_to_braille (v : List DataTimeStep) (cfg : Config)
    (bridge : Bool) : Except GraphError BraillePlot :=
  if v = [] then .error .EmptyData
  else
    let steps := v.map (rasterStep cfg)
    .ok { steps := if bridge then bridgeSteps steps else steps }

/-- `LEFT_MASKS` from `src/render/braille.rs`. -/
def LEFT_MASKS : List ℕ :=
  [0x00, 0x47, 0x07, 0x46, 0x03, 0x06, 0x44, 0x01, 0x02, 0x04, 0x40]

/-- `RIGHT_MASKS` from `src/render/braille.rs`. -/
def RIGHT_MASKS : List ℕ :=
  [0x00, 0xB8, 0x38, 0xB0, 0x18, 0x30, 0xA0, 0x08, 0x10, 0x20, 0x80]

/-- `pattern_id` from `src/render/braille.rs`. -/
def pattern_id (low high : ℕ) : ℕ :=
  match low, high with
  | 0, 3 => 1
  | 0, 2 => 2
  | 1, 3 => 3
  | 0, 1 => 4
  | 1, 2 => 5
  | 2, 3 => 6
  | 0, 0 => 7
  | 1, 1 => 8
  | 2, 2 => 9
  | 3, 3 => 10
  | _, _ => 0

/-- The per-half-column pattern lookup in `encode_braille_into_frame`
(`plot.steps.get(i).and_then(overlap).unwrap_or(0)`). -/
def patternOf (plot : BraillePlot) (i row_top row_bottom : ℕ) : ℕ :=
  match plot.steps[i]? with
  | none => 0
  | some s =>
    if s.max < row_top ∨ s.min > row_bottom then 0
    else pattern_id (Nat.max s.min row_top - row_top)
                    (Nat.min s.max row_bottom - row_top)

/-- The combined dot mask for one character cell:
`LEFT_MASKS[left_pattern] | RIGHT_MASKS[right_pattern]`. -/
def maskAt (plot : BraillePlot) (row col : ℕ) : ℕ :=
  let row_top := row * VR
  let row_bottom := row_top + 3
  LEFT_MASKS.getD (patternOf plot (col * 2) row_top row_bottom) 0
    ||| RIGHT_MASKS.getD (patternOf plot (col * 2 + 1) row_top row_bottom) 0

/-- The three bytes `encode_braille_into_frame` stores for a cell:
`E2, A0|((mask>>6)&3), 80|(mask&3F)`. -/
def cellBytes (mask : ℕ) : List ℕ :=
  [0xE2, 0xA0 ||| ((mask >>> 6) &&& 0x03), 0x80 ||| (mask &&& 0x3F)]

/-- The three byte stores for one cell (`buf[cell] = ...` etc.).
`List.set` out of bounds is a no-op where Rust would panic; the claims
carry the buffer-size precondition that keeps every store in bounds. -/
def writeCell (buf : List ℕ) (cell mask : ℕ) : List ℕ :=
  ((buf.set cell 0xE2).set (cell + 1) (0xA0 ||| ((mask >>> 6) &&& 0x03))).set
    (cell + 2) (0x80 ||| (mask &&& 0x3F))

/-- `encode_braille_into_frame` from `src/render/braille.rs`: row-major
loop writing one 3-byte cell per `(row, col)` at
`offset + row*row_stride + col*3`. -/
def encode_braille_into_frame (buf : List ℕ) (offset row_stride : ℕ)
    (plot : BraillePlot) (x_chars y_chars : ℕ) : List ℕ :=
  (List.range y_chars).foldl (fun b row =>
    (List.range x_chars).foldl (fun b2 col =>
      writeCell b2 (offset + row * row_stride + col * 3) (maskAt plot row col)) b) buf

/-- Standard UTF-8 encoding of a Unicode scalar value (spec side, for
comparison with the bytes the encoder writes). -/
def utf8EncodeNat (c : ℕ) : List ℕ :=
  if c < 0x80 then [c]
  else if c < 0x800 then [0xC0 ||| (c >>> 6), 0x80 ||| (c &&& 0x3F)]
  else if c < 0x10000 then
    [0xE0 ||| (c >>> 12), 0x80 ||| ((c >>> 6) &&& 0x3F), 0x80 ||| (c &&& 0x3F)]
  else
    [0xF0 ||| (c >>> 18), 0x80 ||| ((c >>> 12) &&& 0x3F),
     0x80 ||| ((c >>> 6) &&& 0x3F), 0x80 ||| (c &&& 0x3F)]

/-- C7: with bridging enabled, `preprocess_to_braille` keeps the first
pixel step unchanged and replaces every step `i ≥ 1` by
`min = min(prev.min, curr.min+1)`, `max = max(prev.max, curr.max-1)`
computed from the **unbridged** steps at `i-1` and `i` (the pass builds a
new sequence, never reading already-bridged values), and the output length
equals the input length.  `curr.max - 1` is Rust's `saturating_sub`,
i.e. truncated ℕ subtraction. -/
theorem C7_bridging (v : List DataTimeStep) (cfg : Config) (hv : v ≠ []) :
    ∃ pb p0 : BraillePlot,
      preprocess_to_braille v cfg true = .ok pb
      ∧ preprocess_to_braille v cfg false = .ok p0
      ∧ pb.steps.length = v.length
      ∧ p0.steps.length = v.length
      ∧ pb.steps[0]? = p0.steps[0]?
      ∧ (∀ i : ℕ, 1 ≤ i → i < v.length → ∀ prev curr : GraphTimeStep,
          p0.steps[i-1]? = some prev → p0.steps[i]? = some curr →
          pb.steps[i]? = some ({ min := Nat.min prev.min (curr.min + 1),
                                 max := Nat.max prev.max (curr.max - 1) } : GraphTimeStep)) := by
  obtain ⟨a, tail, rfl⟩ : ∃ a tail, v = a :: tail := by
    cases v with
    | nil => exact absurd rfl hv
    | cons a tail => exact ⟨a, tail, rfl⟩
  refine ⟨⟨bridgeSteps ((a :: tail).map (rasterStep cfg))⟩,
          ⟨(a :: tail).map (rasterStep cfg)⟩, ?_, ?_, ?_, ?_, ?_, ?_⟩
  · unfold preprocess_to_braille
    rw [if_neg hv]
    rfl
  · unfold preprocess_to_braille
    rw [if_neg hv]
    rfl
  · show (bridgeSteps (rasterStep cfg a :: tail.map (rasterStep cfg))).length = _
    unfold bridgeSteps
    simp
  · simp
  · simp [bridgeSteps]
  · intro i h1 h2 prev curr hprev hcurr
    obtain ⟨k, rfl⟩ : ∃ k, i = k + 1 := ⟨i - 1, by omega⟩
    simp only [List.map_cons, Nat.add_sub_cancel] at hprev hcurr
    show (bridgeSteps (rasterStep cfg a :: tail.map (rasterStep cfg)))[k+1]? = _
    unfold bridgeSteps
    rw [List.getElem?_cons_succ, List.getElem?_map, List.getElem?_range (by
      simp only [List.length_cons, List.length_map] at h2 ⊢
      omega)]
    simp only [Option.map_some', List.getD_eq_getElem?_getD]
    rw [hprev, hcurr]
    rfl

/-- C7 (witness): the bridging theorem at two concrete samples. -/
theorem C7_bridging_witness :
    ([⟨0,0,2⟩, (⟨1,5,9⟩ : DataTimeStep)] : List DataTimeStep) ≠ []
    ∧ (∃ pb p0 : BraillePlot,
      preprocess_to_braille [⟨0,0,2⟩, ⟨1,5,9⟩] ⟨[], none, 0, 10, 1, 1, [], none⟩ true = .ok pb
      ∧ preprocess_to_braille [⟨0,0,2⟩, ⟨1,5,9⟩] ⟨[], none, 0, 10, 1, 1, [], none⟩ false = .ok p0
      ∧ pb.steps.length = ([⟨0,0,2⟩, (⟨1,5,9⟩ : DataTimeStep)] : List DataTimeStep).length
      ∧ p0.steps.length = ([⟨0,0,2⟩, (⟨1,5,9⟩ : DataTimeStep)] : List DataTimeStep).length
      ∧ pb.steps[0]? = p0.steps[0]?
      ∧ (∀ i : ℕ, 1 ≤ i → i < ([⟨0,0,2⟩, (⟨1,5,9⟩ : DataTimeStep)] : List DataTimeStep).length →
          ∀ prev curr : GraphTimeStep,
          p0.steps[i-1]? = some prev → p0.steps[i]? = some curr →
          pb.steps[i]? = some ({ min := Nat.min prev.min (curr.min + 1),
                                 max := Nat.max prev.max (curr.max - 1) } : GraphTimeStep))) :=
  ⟨by decide,
   C7_bridging [⟨0,0,2⟩, ⟨1,5,9⟩] ⟨[], none, 0, 10, 1, 1, [], none⟩ (by decide)⟩

/-!
## Helper lemmas: `encode_braille_into_frame` frame effect
-/

theorem writeCell_length (buf : List ℕ) (cell mask : ℕ) :
    (writeCell buf cell mask).length = buf.length := by
  simp [writeCell]

theorem writeCell_untouched (buf : List ℕ) (cell mask j : ℕ)
    (h : ∀ k, k < 3 → j ≠ cell + k) :
    (writeCell buf cell mask)[j]? = buf[j]? := by
  unfold writeCell
  rw [List.getElem?_set_ne (by have := h 2 (by omega); omega),
      List.getElem?_set_ne (by have := h 1 (by omega); omega),
      List.getElem?_set_ne (by have := h 0 (by omega); omega)]

theorem writeCell_value (buf : List ℕ) (cell mask k : ℕ) (hk : k < 3)
    (hb : cell + 2 < buf.length) :
    (writeCell buf cell mask)[cell + k]? = (cellBytes mask)[k]? := by
  interval_cases k
  · unfold writeCell cellBytes
    rw [List.getElem?_set_ne (by omega)]
    rw [show cell + 0 = cell from rfl]
    rw [List.getElem?_set_ne (by omega)]
    rw [List.getElem?_set_self (by omega)]
    rfl
  · unfold writeCell cellBytes
    rw [List.getElem?_set_ne (by omega)]
    rw [List.getElem?_set_self (by simp only [List.length_set]; omega)]
    rfl
  · unfold writeCell cellBytes
    rw [List.getElem?_set_self (by simp only [List.length_set]; omega)]
    rfl

theorem rowFold_length (plot : BraillePlot) (row base x : ℕ) (buf : List ℕ) :
    ((List.range x).foldl
      (fun b2 col => writeCell b2 (base + col * 3) (maskAt plot row col)) buf).length
      = buf.length := by
  induction x generalizing buf with
  | zero => rfl
  | succ x ih =>
    rw [List.range_succ, List.foldl_append, List.foldl_cons, List.foldl_nil,
      writeCell_length, ih]

theorem rowFold_untouched (plot : BraillePlot) (row base x : ℕ) (buf : List ℕ)
    (j : ℕ) (hj : ∀ col, col < x → ∀ k, k < 3 → j ≠ base + col * 3 + k) :
    ((List.range x).foldl
      (fun b2 col => writeCell b2 (base + col * 3) (maskAt plot row col)) buf)[j]?
      = buf[j]? := by
  induction x generalizing buf with
  | zero => rfl
  | succ x ih =>
    rw [List.range_succ, List.foldl_append, List.foldl_cons, List.foldl_nil]
    rw [writeCell_untouched _ _ _ _ (fun k hk => hj x (Nat.lt_succ_self x) k hk)]
    exact ih buf (fun col hcol k hk => hj col (Nat.lt_succ_of_lt hcol) k hk)

theorem rowFold_value (plot : BraillePlot) (row base x : ℕ) (k : ℕ) (hk : k < 3) :
    ∀ (buf : List ℕ) (col : ℕ), col < x → base + col * 3 + 2 < buf.length →
    ((List.range x).foldl
      (fun b2 col => writeCell b2 (base + col * 3) (maskAt plot row col)) buf)[base + col * 3 + k]?
      = (cellBytes (maskAt plot row col))[k]? := by
  induction x with
  | zero => omega
  | succ x ih =>
    intro buf col hcol hb
    rw [List.range_succ, List.foldl_append, List.foldl_cons, List.foldl_nil]
    rcases Nat.lt_or_ge col x with h | h
    · rw [writeCell_untouched _ _ _ _ (fun k' hk' => by omega)]
      exact ih buf col h hb
    · have hcx : col = x := by omega
      subst hcx
      have hb2 : base + col * 3 + 2 <
          ((List.range col).foldl
            (fun b2 c => writeCell b2 (base + c * 3) (maskAt plot row c)) buf).length := by
        rw [rowFold_length]
        exact hb
      exact writeCell_value _ _ _ k hk hb2

theorem encode_length (buf : List ℕ) (offset row_stride : ℕ)
    (plot : BraillePlot) (x y : ℕ) :
    (encode_braille_into_frame buf offset row_stride plot x y).length = buf.length := by
  unfold encode_braille_into_frame
  induction y generalizing buf with
  | zero => rfl
  | succ y ih =>
    rw [List.range_succ, List.foldl_append, List.foldl_cons, List.foldl_nil,
      rowFold_length, ih]

theorem encode_untouched (buf : List ℕ) (offset row_stride : ℕ)
    (plot : BraillePlot) (x y : ℕ) (j : ℕ)
    (hj : ∀ row, row < y → ∀ col, col < x → ∀ k, k < 3 →
      j ≠ offset + row * row_stride + col * 3 + k) :
    (encode_braille_into_frame buf offset row_stride plot x y)[j]? = buf[j]? := by
  unfold encode_braille_into_frame
  induction y generalizing buf with
  | zero => rfl
  | succ y ih =>
    rw [List.range_succ, List.foldl_append, List.foldl_cons, List.foldl_nil]
    rw [rowFold_untouched _ _ _ _ _ _
      (fun col hcol k hk => hj y (Nat.lt_succ_self y) col hcol k hk)]
    exact ih buf (fun row hrow col hcol k hk =>
      hj row (Nat.lt_succ_of_lt hrow) col hcol k hk)

theorem encode_value (offset row_stride : ℕ) (plot : BraillePlot)
    (x y : ℕ) (hx : 3 * x ≤ row_stride) :
    ∀ (buf : List ℕ) (row col k : ℕ),
      offset + row_stride * y ≤ buf.length → row < y → col < x → k < 3 →
      (encode_braille_into_frame buf offset row_stride plot x y)[offset + row * row_stride + col * 3 + k]?
        = (cellBytes (maskAt plot row col))[k]? := by
  unfold encode_braille_into_frame
  induction y with
  | zero =>
    intro buf row col k hlen hrow hcol hk
    omega
  | succ y ih =>
    intro buf row col k hlen hrow hcol hk
    rw [List.range_succ, List.foldl_append, List.foldl_cons, List.foldl_nil]
    rcases Nat.lt_or_ge row y with h | h
    · -- the final row `y` only writes at or beyond `offset + y*stride`
      have hmono : (row + 1) * row_stride ≤ y * row_stride :=
        Nat.mul_le_mul_right row_stride h
      have hdist : (row + 1) * row_stride = row * row_stride + row_stride := by ring
      have hcomm1 : row_stride * y = y * row_stride := Nat.mul_comm _ _
      rw [rowFold_untouched _ _ _ _ _ _ (fun c hc k' hk' => by
        have h1 : col * 3 + k < row_stride := by omega
        have h2 : row * row_stride + row_stride ≤ y * row_stride := by
          rw [← hdist]
          exact hmono
        omega)]
      have hlen' : offset + row_stride * y ≤ buf.length := by
        have hmul : row_stride * y ≤ row_stride * (y + 1) :=
          Nat.mul_le_mul_left _ (Nat.le_succ y)
        omega
      exact ih buf row col k hlen' h hcol hk
    · have hry : row = y := by omega
      subst hry
      have hb2 : offset + row * row_stride + col * 3 + 2 <
          ((List.range row).foldl (fun b r =>
            (List.range x).foldl (fun b2 c =>
              writeCell b2 (offset + r * row_stride + c * 3) (maskAt plot r c)) b) buf).length := by
        have hlenfold : ((List.range row).foldl (fun b r =>
            (List.range x).foldl (fun b2 c =>
              writeCell b2 (offset + r * row_stride + c * 3) (maskAt plot r c)) b) buf).length
            = buf.length := encode_length buf offset row_stride plot x row
        have hdist : row_stride * (row + 1) = row_stride * row + row_stride := by ring
        have hcomm1 : row_stride * row = row * row_stride := Nat.mul_comm _ _
        omega
      exact rowFold_value plot row (offset + row * row_stride) x k hk _ col hcol hb2

theorem masks_getD_lt (p : ℕ) :
    LEFT_MASKS.getD p 0 < 256 ∧ RIGHT_MASKS.getD p 0 < 256 := by
  rcases Nat.lt_or_ge p 11 with h | h
  · constructor <;> (interval_cases p <;> decide)
  · rw [List.getD_eq_default _ _ (by simp [LEFT_MASKS]; omega),
        List.getD_eq_default _ _ (by simp [RIGHT_MASKS]; omega)]
    exact ⟨by norm_num, by norm_num⟩

theorem maskAt_lt_256 (plot : BraillePlot) (row col : ℕ) :
    maskAt plot row col < 256 := by
  unfold maskAt
  have h1 := (masks_getD_lt (patternOf plot (col * 2) (row * VR) (row * VR + 3))).1
  have h2 := (masks_getD_lt (patternOf plot (col * 2 + 1) (row * VR) (row * VR + 3))).2
  have := Nat.or_lt_two_pow (n := 8) (by simpa using h1) (by simpa using h2)
  simpa using this

/-!
## Claim C6 — braille cells are valid UTF-8
-/

set_option maxRecDepth 8192 in
/-- C6: for every 8-bit mask, the three bytes the encoder stores
(`cellBytes`) are exactly the UTF-8 encoding of the scalar
`U+2800 + mask`; every combined mask is below 256, and the bytes stored at
each cell of the frame are those three bytes — so the braille payload is
always the valid UTF-8 encoding of scalars in `U+2800..U+28FF`. -/
theorem C6_braille_utf8 :
    (∀ mask : ℕ, mask < 256 →
        cellBytes mask = utf8EncodeNat (0x2800 + mask) ∧ 0x2800 + mask ≤ 0x28FF)
    ∧ (∀ (plot : BraillePlot) (row col : ℕ), maskAt plot row col < 256)
    ∧ (∀ (buf : List ℕ) (offset row_stride : ℕ) (plot : BraillePlot) (x y : ℕ),
        offset + row_stride * y ≤ buf.length → 3 * x ≤ row_stride →
        ∀ row, row < y → ∀ col, col < x → ∀ k, k < 3 →
          (encode_braille_into_frame buf offset row_stride plot x y)[offset + row * row_stride + col * 3 + k]?
            = (cellBytes (maskAt plot row col))[k]?) := by
  refine ⟨by decide, maskAt_lt_256, ?_⟩
  intro buf offset row_stride plot x y hlen hx row hrow col hcol k hk
  exact encode_value offset row_stride plot x y hx buf row col k hlen hrow hcol hk

/-- C6 (witness): the first conjunct evaluated at mask `0x47` (the left
full-column pattern) and the cell-byte conjunct on a concrete buffer. -/
theorem C6_braille_utf8_witness :
    ((0x47 : ℕ) < 256 ∧ cellBytes 0x47 = utf8EncodeNat (0x2800 + 0x47)
      ∧ (0x2800 : ℕ) + 0x47 ≤ 0x28FF)
    ∧ ((0 : ℕ) + 6 * 1 ≤ (List.replicate 10 0).length ∧ 3 * 2 ≤ 6
      ∧ (encode_braille_into_frame (List.replicate 10 0) 0 6
          ⟨[⟨0, 3⟩]⟩ 2 1)[0 + 0 * 6 + 0 * 3 + 0]?
        = (cellBytes (maskAt ⟨[⟨0, 3⟩]⟩ 0 0))[0]?) :=
  ⟨⟨by norm_num, (C6_braille_utf8.1 0x47 (by norm_num)).1,
    (C6_braille_utf8.1 0x47 (by norm_num)).2⟩,
   ⟨by decide, by decide,
    C6_braille_utf8.2.2 (List.replicate 10 0) 0 6 ⟨[⟨0, 3⟩]⟩ 2 1
      (by decide) (by decide) 0 (by decide) 0 (by decide) 0 (by decide)⟩⟩

/-!
## Claim C10 — the encoder writes only the braille cells
-/

/-- C10: under the buffer-size precondition (`buf.len ≥ offset +
row_stride*y_chars`, and `3*x_chars ≤ row_stride` so that cells stay
inside their row record), `encode_braille_into_frame` preserves the buffer
length, writes exactly the 3-byte cells at
`offset + row*row_stride + col*3` for `row < y_chars`, `col < x_chars`,
and leaves every other byte unchanged. -/
theorem C10_encode_frame_effect (buf : List ℕ) (offset row_stride : ℕ)
    (plot : BraillePlot) (x_chars y_chars : ℕ)
    (hlen : offset + row_stride * y_chars ≤ buf.length)
    (hx : 3 * x_chars ≤ row_stride) :
    (encode_braille_into_frame buf offset row_stride plot x_chars y_chars).length
      = buf.length
    ∧ (∀ j : ℕ,
        (∀ row, row < y_chars → ∀ col, col < x_chars → ∀ k, k < 3 →
          j ≠ offset + row * row_stride + col * 3 + k) →
        (encode_braille_into_frame buf offset row_stride plot x_chars y_chars)[j]?
          = buf[j]?)
    ∧ (∀ row, row < y_chars → ∀ col, col < x_chars → ∀ k, k < 3 →
        (encode_braille_into_frame buf offset row_stride plot x_chars y_chars)[offset + row * row_stride + col * 3 + k]?
          = (cellBytes (maskAt plot row col))[k]?) :=
  ⟨encode_length buf offset row_stride plot x_chars y_chars,
   fun j hj => encode_untouched buf offset row_stride plot x_chars y_chars j hj,
   fun row hrow col hcol k hk =>
     encode_value offset row_stride plot x_chars y_chars hx buf row col k hlen hrow hcol hk⟩

/-- C10 (witness): the frame-effect theorem on a 10-byte buffer of
sevens, one row of two cells, stride 6: byte 6 (outside every cell,
beyond the row's `3*x = 6` payload bytes... here j = 6 is the first cell
byte of no cell since `offset + 0*6 + col*3 + k ≤ 5`) is unchanged. -/
theorem C10_encode_frame_effect_witness :
    ((0 : ℕ) + 6 * 1 ≤ (List.replicate 10 7).length ∧ 3 * 2 ≤ 6)
    ∧ ((encode_braille_into_frame (List.replicate 10 7) 0 6 ⟨[⟨0, 3⟩]⟩ 2 1).length
        = (List.replicate 10 7).length
      ∧ (∀ j : ℕ,
          (∀ row, row < 1 → ∀ col, col < 2 → ∀ k, k < 3 →
            j ≠ 0 + row * 6 + col * 3 + k) →
          (encode_braille_into_frame (List.replicate 10 7) 0 6 ⟨[⟨0, 3⟩]⟩ 2 1)[j]?
            = (List.replicate 10 7)[j]?)
      ∧ (∀ row, row < 1 → ∀ col, col < 2 → ∀ k, k < 3 →
          (encode_braille_into_frame (List.replicate 10 7) 0 6 ⟨[⟨0, 3⟩]⟩ 2 1)[0 + row * 6 + col * 3 + k]?
            = (cellBytes (maskAt ⟨[⟨0, 3⟩]⟩ row col))[k]?)) :=
  ⟨⟨by decide, by decide⟩,
   C10_encode_frame_effect (List.replicate 10 7) 0 6 ⟨[⟨0, 3⟩]⟩ 2 1
     (by decide) (by decide)⟩

/-!
## Differential renderer (`src/render/frame.rs`)

Strings are modelled as UTF-8 byte lists (`List ℕ`); `utf8EncodeChar`
gives a character's bytes.
-/

/-- UTF-8 bytes of one character. -/
def utf8EncodeChar (c : Char) : List ℕ := utf8EncodeNat c.toNat

/-- UTF-8 bytes of a string (list of chars). -/
def strBytes (s : List Char) : List ℕ := (s.map utf8EncodeChar).flatten

/-- `TITLE_PADDING` from `src/render/frame.rs`. -/
def TITLE_PADDING : ℕ := 3

/-- Box-drawing glyph bytes from `src/render/frame.rs`. -/
def TL_B : List ℕ := [0xE2, 0x94, 0x8C]

def TR_B : List ℕ := [0xE2, 0x94, 0x90]

def BL_B : List ℕ := [0xE2, 0x94, 0x94]

def BR_B : List ℕ := [0xE2, 0x94, 0x98]

def H_B : List ℕ := [0xE2, 0x94, 0x80]

def V_B : List ℕ := [0xE2, 0x94, 0x82]

/-- `RESET_SEQ` (`ESC[0m`). -/
def RESET_SEQ : List ℕ := [27, 91, 48, 109]

/-- `H.repeat n` as bytes. -/
def hRepeat (n : ℕ) : List ℕ := (List.replicate n H_B).flatten

/-- `" ".repeat n` as bytes. -/
def spaces (n : ℕ) : List ℕ := List.replicate n 32

/-- `colorize` from `src/core/color.rs`: colour escape ++ text ++ reset. -/
def colorize (color : List ℕ) (text : List Char) : List ℕ :=
  color ++ strBytes text ++ RESET_SEQ

/-- `push_centered` from `src/render/frame.rs` (returns the pushed bytes). -/
def push_centered (text : List Char) (width : ℕ) (color : List ℕ) : List ℕ :=
  let inner := width - TITLE_PADDING
  let len := text.length
  if len = 0 ∨ len > inner then hRepeat width
  else
    let pad_left := (inner - len) / 2
    let pad_right := inner - len - pad_left
    hRepeat pad_left ++ spaces 2 ++ colorize color text ++ spaces 1
      ++ hRepeat pad_right

/-- Round to the nearest integer, ties to even — the rounding used by
Rust's fixed-precision float formatting. -/
def roundHalfEven (x : ℚ) : ℤ :=
  let f := ⌊x⌋
  let r := x - (f : ℚ)
  if r < 1/2 then f
  else if 1/2 < r then f + 1
  else if f % 2 = 0 then f else f + 1

/-- Decimal digit bytes of a natural number (as `push_usize_dec` /
`Nat` formatting produce). -/
def decBytes (n : ℕ) : List ℕ := (Nat.toDigits 10 n).map Char.toNat

/-- `format!("{:.d$}", x)` on a finite value, modelled exactly on ℚ:
scale by `10^d`, round half-to-even, print sign, integer digits, a dot
and `d` fraction digits.  (A float in `(-10^-d/2, 0)` would print a Rust
`-0.⋯0`; the model drops that sign — no verified claim evaluates labels
there.) -/
def fmtFixed (x : ℚ) (d : ℕ) : List ℕ :=
  let scaled := roundHalfEven (x * ((10 ^ d : ℕ) : ℚ))
  let mag := scaled.natAbs
  let intPart := mag / 10 ^ d
  let fracPart := mag % 10 ^ d
  let sign : List ℕ := if x < 0 then [45] else []
  let fracDigits : List ℕ :=
    if d = 0 then []
    else
      let fd := decBytes fracPart
      46 :: (List.replicate (d - fd.length) 48 ++ fd)
  sign ++ decBytes intPart ++ fracDigits

/-- `y_label_width` from `src/core/bounds.rs`: the wider of the two
formatted labels. -/
def y_label_width (cfg : Config) : ℕ :=
  Nat.max (fmtFixed cfg.y_min DECIMAL_PRECISION).length
    (fmtFixed cfg.y_max DECIMAL_PRECISION).length

/-- `Strategy` enum of `src/render/frame.rs` (`Full` / `Delta`),
named `RStrategy` to avoid clashing with the binner's `Strategy`. -/
inductive RStrategy
  | Full
  | Delta
deriving DecidableEq, Repr

/-- `Renderer` from `src/render/frame.rs`. -/
structure Renderer where
  strat : RStrategy
  first_frame : Bool
  chrome_top : List ℕ
  chrome_bot : List ℕ
  graph_buf : List ℕ
  prev_buf : List ℕ
  row_bytes : ℕ
  cached_label_width : ℕ
  cached_x : ℕ
  cached_y : ℕ
deriving DecidableEq, Repr

/-- `Renderer::new` (via `Renderer::full` / `Renderer::delta`). -/
def Renderer.mk0 (strat : RStrategy) : Renderer :=
  { strat := strat, first_frame := true, chrome_top := [], chrome_bot := [],
    graph_buf := [], prev_buf := [], row_bytes := 0,
    cached_label_width := 0, cached_x := 0, cached_y := 0 }

/-- `Renderer::refresh_chrome`. -/
def refresh_chrome (st : Renderer) (cfg : Config) (label_width : ℕ) : Renderer :=
  let line_len := cfg.x_chars + label_width + LABEL_GUTTER + BORDER_WIDTH
  let top := TL_B ++ push_centered cfg.title (line_len - BORDER_WIDTH) cfg.color
    ++ TR_B ++ [10]
    ++ V_B ++ spaces (line_len - BORDER_WIDTH) ++ V_B ++ [10]
  let bot := V_B ++ spaces (line_len - BORDER_WIDTH) ++ V_B ++ [10]
    ++ BL_B
    ++ (match cfg.subtitle with
        | some sub => push_centered sub (line_len - BORDER_WIDTH) cfg.color
        | none => hRepeat (line_len - BORDER_WIDTH))
    ++ BR_B ++ [10]
  { st with chrome_top := top, chrome_bot := bot }

/-- `Vec::resize(total, 0)` guarded by a length test: keep the buffer when
the length already matches, else truncate / pad with zeros. -/
def resizeList (l : List ℕ) (total : ℕ) : List ℕ :=
  if l.length = total then l
  else l.take total ++ List.replicate (total - l.length) 0

/-- `copy_from_slice` into `buf` at `pos`. -/
def writeBytes (buf : List ℕ) (pos : ℕ) (src : List ℕ) : List ℕ :=
  (List.range src.length).foldl (fun b i => b.set (pos + i) (src.getD i 0)) buf

/-- `Renderer::fill_graph_rows`: size check first, then build every graph
row into `graph_buf` (each row: left border, label field, gutter, colour
escape, braille payload, reset, right border, newline), overwrite the
first/last label fields with the formatted Y labels, and write the braille
payload via `encode_braille_into_frame`. -/
def fill_graph_rows (st : Renderer) (cfg : Config) (plot : BraillePlot) :
    Except GraphError Renderer :=
  if cfg.x_chars < MIN_GRAPH_WIDTH ∨ cfg.y_chars < MIN_GRAPH_HEIGHT then
    .error (.GraphTooSmall MIN_GRAPH_WIDTH MIN_GRAPH_HEIGHT cfg.x_chars cfg.y_chars)
  else
    let high_label := fmtFixed cfg.y_max DECIMAL_PRECISION
    let low_label := fmtFixed cfg.y_min DECIMAL_PRECISION
    let label_width := Nat.max high_label.length low_label.length
    let color_seq := cfg.color
    let braille_bytes := cfg.x_chars * 3
    let fixedPrefixBytes := V_B.length + label_width + LABEL_GUTTER + color_seq.length
    let fixedSuffixBytes := RESET_SEQ.length + V_B.length
    let row_bytes := fixedPrefixBytes + braille_bytes + fixedSuffixBytes
    let stride := row_bytes + 1
    let total := stride * cfg.y_chars
    let gbuf0 := resizeList st.graph_buf total
    let pbuf := resizeList st.prev_buf total
    let gbuf1 := (List.range cfg.y_chars).foldl (fun b r =>
      let base := r * stride
      let b := writeBytes b base V_B
      let b := writeBytes b (base + V_B.length) (spaces label_width)
      let b := writeBytes b (base + V_B.length + label_width) (spaces LABEL_GUTTER)
      let b := writeBytes b (base + fixedPrefixBytes - color_seq.length) color_seq
      let b := writeBytes b (base + fixedPrefixBytes + braille_bytes) RESET_SEQ
      let b := writeBytes b (base + fixedPrefixBytes + braille_bytes + RESET_SEQ.length) V_B
      b.set (base + row_bytes) 10) gbuf0
    let gbuf2 := writeBytes gbuf1 (V_B.length + label_width - high_label.length) high_label
    let gbuf3 := writeBytes gbuf2
      ((cfg.y_chars - 1) * stride + V_B.length + label_width - low_label.length) low_label
    let gbuf4 := encode_braille_into_frame gbuf3 fixedPrefixBytes stride plot
      cfg.x_chars cfg.y_chars
    .ok { st with graph_buf := gbuf4, prev_buf := pbuf, row_bytes := row_bytes }

/-- One row's byte segment (newline excluded), as compared by
`diff_rows_xor`'s XOR scan. -/
def rowSeg (buf : List ℕ) (stride row_bytes i : ℕ) : List ℕ :=
  (buf.drop (i * stride)).take row_bytes

/-- `Renderer::diff_rows_xor`: bit `i` set iff row `i`'s bytes differ
(the 8-byte XOR chunking detects exactly byte-wise inequality of the
segment); `u64::MAX` when more than 64 rows. -/
def diff_rows_xor (st : Renderer) (cfg : Config) : ℕ :=
  if cfg.y_chars > 64 then 2 ^ 64 - 1
  else (List.range cfg.y_chars).foldl (fun mask i =>
    if rowSeg st.graph_buf (st.row_bytes + 1) st.row_bytes i
        ≠ rowSeg st.prev_buf (st.row_bytes + 1) st.row_bytes i
    then mask ||| 2 ^ i else mask) 0

/-- `ESC[{row};1H` as produced via `push_usize_dec`. -/
def escCursor (row : ℕ) : List ℕ := [27, 91] ++ decBytes row ++ [59, 49, 72]

/-- Copy a dirty row range of `graph_buf` into `prev_buf`. -/
def syncRow (prev graph : List ℕ) (stride row_bytes i : ℕ) : List ℕ :=
  writeBytes prev (i * stride) (rowSeg graph stride row_bytes i)

/-- `Renderer::render`, modelled as a pure state transition returning the
bytes written to the terminal and an optional error.  Terminal I/O itself
cannot fail in the model, so the only error is `GraphTooSmall`; on that
path nothing has been written (the cursor guard is created after
`fill_graph_rows` succeeds). -/
def Renderer.render (st : Renderer) (cfg : Config) (plot : BraillePlot) :
    Renderer × List ℕ × Option GraphError :=
  let label_width := y_label_width cfg
  let chrome_stale := st.chrome_top = [] ∨ st.cached_label_width ≠ label_width
    ∨ st.cached_x ≠ cfg.x_chars ∨ st.cached_y ≠ cfg.y_chars
  let st1 :=
    if chrome_stale then
      { refresh_chrome st cfg label_width with
        cached_label_width := label_width
        cached_x := cfg.x_chars
        cached_y := cfg.y_chars }
    else st
  match fill_graph_rows st1 cfg plot with
  | .error e => (st1, [], some e)
  | .ok st2 =>
    let hide := [27, 91, 63, 50, 53, 108]       -- ESC[?25l
    let showCur := [27, 91, 63, 50, 53, 104]    -- ESC[?25h
    let clear := if st2.first_frame then [27, 91, 50, 74] else []  -- ESC[2J
    let st3 := { st2 with first_frame := false }
    let chromeOut := if chrome_stale then [27, 91, 49, 59, 49, 72] ++ st3.chrome_top else []
    let graph_start_row := 3
    let body :=
      match st3.strat with
      | RStrategy.Full =>
        ({ st3 with prev_buf := st3.graph_buf },
         escCursor graph_start_row ++ st3.graph_buf)
      | RStrategy.Delta =>
        let dirty_mask := diff_rows_xor st3 cfg
        let rows := cfg.y_chars
        let dirty_count :=
          if dirty_mask = 2 ^ 64 - 1 ∧ rows > 64 then rows
          else ((List.range 64).filter (fun i => dirty_mask.testBit i)).length
        let too_many := rows > 64 ∨ dirty_count * 2 > rows
        if too_many then
          ({ st3 with prev_buf := st3.graph_buf },
           escCursor graph_start_row ++ st3.graph_buf)
        else
          let stride := st3.row_bytes + 1
          let out := (List.range rows).foldl (fun acc i =>
            if dirty_mask.testBit i then
              acc ++ escCursor (graph_start_row + i)
                ++ rowSeg st3.graph_buf stride st3.row_bytes i
            else acc) []
          let prev' := (List.range rows).foldl (fun p i =>
            if dirty_mask.testBit i then
              syncRow p st3.graph_buf stride st3.row_bytes i
            else p) st3.prev_buf
          ({ st3 with prev_buf := prev' }, out)
    let st4 := body.1
    let bodyOut := body.2
    let footer_row_start := cfg.y_chars + 3
    let footOut := if chrome_stale then escCursor footer_row_start ++ st4.chrome_bot else []
    let parkOut := escCursor (footer_row_start + 2)
    (st4, hide ++ clear ++ chromeOut ++ bodyOut ++ footOut ++ parkOut ++ showCur, none)

/-- C9 (amended): in the model (where terminal writes cannot fail),
`Renderer::render` returns `GraphTooSmall` **iff** `x_chars < 14` or
`y_chars < 7`; on that path the frame buffers (`graph_buf`, `prev_buf`)
are untouched and no terminal bytes are written, and there is no retry —
but the chrome cache **is** rebuilt before the size check (see the
counterexample), so "no chrome state is built or mutated on that error
path" does not hold. -/
theorem C9_graph_too_small (st : Renderer) (cfg : Config) (plot : BraillePlot) :
    ((st.render cfg plot).2.2
        = some (GraphError.GraphTooSmall MIN_GRAPH_WIDTH MIN_GRAPH_HEIGHT
            cfg.x_chars cfg.y_chars)
      ↔ (cfg.x_chars < MIN_GRAPH_WIDTH ∨ cfg.y_chars < MIN_GRAPH_HEIGHT))
    ∧ ((cfg.x_chars < MIN_GRAPH_WIDTH ∨ cfg.y_chars < MIN_GRAPH_HEIGHT) →
        (st.render cfg plot).1.graph_buf = st.graph_buf
        ∧ (st.render cfg plot).1.prev_buf = st.prev_buf
        ∧ (st.render cfg plot).2.1 = []) := by
  have hfill_err : ∀ s : Renderer,
      (cfg.x_chars < MIN_GRAPH_WIDTH ∨ cfg.y_chars < MIN_GRAPH_HEIGHT) →
      fill_graph_rows s cfg plot
        = .error (.GraphTooSmall MIN_GRAPH_WIDTH MIN_GRAPH_HEIGHT
            cfg.x_chars cfg.y_chars) := by
    intro s h
    unfold fill_graph_rows
    rw [if_pos h]
  have hfill_ok : ∀ s : Renderer,
      ¬(cfg.x_chars < MIN_GRAPH_WIDTH ∨ cfg.y_chars < MIN_GRAPH_HEIGHT) →
      ∃ s2, fill_graph_rows s cfg plot = .ok s2 := by
    intro s h
    unfold fill_graph_rows
    rw [if_neg h]
    exact ⟨_, rfl⟩
  have hst1 : ∀ w : ℕ,
      (if st.chrome_top = [] ∨ st.cached_label_width ≠ w
          ∨ st.cached_x ≠ cfg.x_chars ∨ st.cached_y ≠ cfg.y_chars
       then { refresh_chrome st cfg w with
              cached_label_width := w
              cached_x := cfg.x_chars
              cached_y := cfg.y_chars }
       else st).graph_buf = st.graph_buf
      ∧ (if st.chrome_top = [] ∨ st.cached_label_width ≠ w
          ∨ st.cached_x ≠ cfg.x_chars ∨ st.cached_y ≠ cfg.y_chars
       then { refresh_chrome st cfg w with
              cached_label_width := w
              cached_x := cfg.x_chars
              cached_y := cfg.y_chars }
       else st).prev_buf = st.prev_buf := by
    intro w
    constructor
    · split
      · rfl
      · rfl
    · split
      · rfl
      · rfl
  by_cases hc : cfg.x_chars < MIN_GRAPH_WIDTH ∨ cfg.y_chars < MIN_GRAPH_HEIGHT
  · unfold Renderer.render
    dsimp only
    rw [hfill_err _ hc]
    dsimp only
    exact ⟨⟨fun _ => hc, fun _ => rfl⟩,
           fun _ => ⟨(hst1 _).1, (hst1 _).2, rfl⟩⟩
  · unfold Renderer.render
    dsimp only
    obtain ⟨s2, heq⟩ := hfill_ok _ hc
    rw [heq]
    exact ⟨⟨fun h => Option.noConfusion h, fun h => absurd h hc⟩,
           fun h => absurd h hc⟩

/-- C9 (witness): the amended theorem instantiated at a fresh Full
renderer with a too-small grid (`x_chars = 1 < 14`). -/
theorem C9_graph_too_small_witness :
    ((1 : ℕ) < MIN_GRAPH_WIDTH ∨ (7 : ℕ) < MIN_GRAPH_HEIGHT)
    ∧ (((Renderer.mk0 RStrategy.Full).render
          ⟨[], none, 0, 10, 1, 7, [], none⟩ ⟨[]⟩).1.graph_buf
        = (Renderer.mk0 RStrategy.Full).graph_buf
      ∧ ((Renderer.mk0 RStrategy.Full).render
          ⟨[], none, 0, 10, 1, 7, [], none⟩ ⟨[]⟩).1.prev_buf
        = (Renderer.mk0 RStrategy.Full).prev_buf
      ∧ ((Renderer.mk0 RStrategy.Full).render
          ⟨[], none, 0, 10, 1, 7, [], none⟩ ⟨[]⟩).2.1 = []) :=
  ⟨Or.inl (by decide),
   (C9_graph_too_small (Renderer.mk0 RStrategy.Full)
     ⟨[], none, 0, 10, 1, 7, [], none⟩ ⟨[]⟩).2 (Or.inl (by decide))⟩

/-- C9 (counterexample): on a fresh renderer with `x_chars = 1`, `render`
fails with `GraphTooSmall 14 7 1 7` — but the chrome cache has been
rebuilt on this very error path (`chrome_top` changes from empty to the
chrome bytes), refuting "no frame-buffer **or chrome** state is built or
mutated on that error path". -/
theorem C9_counterexample :
    ((Renderer.mk0 RStrategy.Full).render
        ⟨[], none, 0, 10, 1, 7, [], none⟩ ⟨[]⟩).2.2
      = some (GraphError.GraphTooSmall 14 7 1 7)
    ∧ ((Renderer.mk0 RStrategy.Full).render
        ⟨[], none, 0, 10, 1, 7, [], none⟩ ⟨[]⟩).1.chrome_top
      ≠ (Renderer.mk0 RStrategy.Full).chrome_top := by
  constructor
  · norm_num [Renderer.render, Renderer.mk0, y_label_width, fmtFixed, roundHalfEven,
      decBytes, DECIMAL_PRECISION, Nat.toDigits, Nat.toDigitsCore, Nat.digitChar,
      fill_graph_rows, refresh_chrome, push_centered, hRepeat, spaces, colorize,
      strBytes, MIN_GRAPH_WIDTH, MIN_GRAPH_HEIGHT, LABEL_GUTTER, BORDER_WIDTH,
      TITLE_PADDING, TL_B, TR_B, V_B, H_B]
  · norm_num [Renderer.render, Renderer.mk0, y_label_width, fmtFixed, roundHalfEven,
      decBytes, DECIMAL_PRECISION, Nat.toDigits, Nat.toDigitsCore, Nat.digitChar,
      fill_graph_rows, refresh_chrome, push_centered, hRepeat, spaces, colorize,
      strBytes, MIN_GRAPH_WIDTH, MIN_GRAPH_HEIGHT, LABEL_GUTTER, BORDER_WIDTH,
      TITLE_PADDING, TL_B, TR_B, V_B, H_B]
    exact List.cons_ne_nil _ _

/-!
## Helper lemmas: Time-strategy window semantics (claim C4)
-/

theorem getSample_cons_succ (a : DataTimeStep) (tl : List DataTimeStep) (k : ℕ) :
    getSample (a :: tl) (k + 1) = getSample tl k := rfl

theorem getSample_cons_zero (a : DataTimeStep) (tl : List DataTimeStep) :
    getSample (a :: tl) 0 = a := rfl

theorem getSample_drop (data : List DataTimeStep) (m j : ℕ) :
    getSample (data.drop m) j = getSample data (m + j) := by
  unfold getSample
  rw [List.getD_eq_getElem?_getD, List.getD_eq_getElem?_getD, List.getElem?_drop]

/-- Number of samples strictly before the `i`-th accumulated window
boundary `t_lo + i*win` (spec side, for stating the window semantics). -/
def windowCount (data : List DataTimeStep) (t_lo win : ℚ) (i : ℕ) : ℕ :=
  (data.takeWhile (fun p => p.time < t_lo + i * win)).length

/-- For time-sorted data the takeWhile prefix below a cut `c` contains
exactly the positions whose sample time is `< c`. -/
theorem takeWhile_count_char (data : List DataTimeStep)
    (hs : data.Pairwise (fun a b => a.time ≤ b.time)) (c : ℚ) :
    ∀ j : ℕ, j < (data.takeWhile (fun p => p.time < c)).length
      ↔ (j < data.length ∧ (getSample data j).time < c) := by
  induction data with
  | nil => intro j; simp
  | cons a tl ih =>
    rw [List.pairwise_cons] at hs
    intro j
    by_cases ha : a.time < c
    · rw [List.takeWhile_cons_of_pos (by simpa using ha)]
      cases j with
      | zero => simpa [getSample_cons_zero] using ha
      | succ k =>
        simp only [List.length_cons, Nat.succ_lt_succ_iff, getSample_cons_succ]
        exact ih hs.2 k
    · rw [List.takeWhile_cons_of_neg (by simpa using ha)]
      simp only [List.length_nil]
      constructor
      · omega
      · rintro ⟨hj, hlt⟩
        exfalso
        cases j with
        | zero => exact ha (by simpa [getSample_cons_zero] using hlt)
        | succ k =>
          rw [getSample_cons_succ] at hlt
          have hkl : k < tl.length := by
            simp only [List.length_cons] at hj
            omega
          have hmem : getSample tl k ∈ tl := by
            unfold getSample
            rw [List.getD_eq_getElem?_getD, List.getElem?_eq_getElem hkl]
            exact List.getElem_mem hkl
          have h1 : a.time ≤ (getSample tl k).time := hs.1 _ hmem
          have h2 : c ≤ a.time := not_lt.mp ha
          linarith

/-- Consuming the sorted tail from the cut-`c1` prefix up to a larger cut
`c2` lands exactly on the cut-`c2` prefix. -/
theorem takeWhile_drop_count (data : List DataTimeStep)
    (hs : data.Pairwise (fun a b => a.time ≤ b.time)) (c1 c2 : ℚ) (hc : c1 ≤ c2) :
    (data.takeWhile (fun p => p.time < c1)).length
      + ((data.drop ((data.takeWhile (fun p => p.time < c1)).length)).takeWhile
          (fun p => p.time < c2)).length
      = (data.takeWhile (fun p => p.time < c2)).length := by
  have hsD : (data.drop ((data.takeWhile (fun p => p.time < c1)).length)).Pairwise
      (fun a b => a.time ≤ b.time) :=
    List.Pairwise.sublist (List.drop_sublist _ _) hs
  have char1 := takeWhile_count_char data hs c1
  have char2 := takeWhile_count_char data hs c2
  have charD := takeWhile_count_char _ hsD c2
  set m1 := (data.takeWhile (fun p => p.time < c1)).length with hm1
  set s := ((data.drop m1).takeWhile (fun p => p.time < c2)).length with hss
  set m2 := (data.takeWhile (fun p => p.time < c2)).length with hm2
  have h12 : m1 ≤ m2 := by
    by_contra h
    push_neg at h
    have h1 := (char1 m2).mp (by omega)
    have h2 := (char2 m2).mpr ⟨h1.1, lt_of_lt_of_le h1.2 hc⟩
    omega
  have hle : m1 + s ≤ m2 := by
    rcases Nat.eq_zero_or_pos s with hs0 | hs0
    · omega
    · have hd := (charD (s - 1)).mp (by omega)
      rw [getSample_drop] at hd
      have hlen : m1 + (s - 1) < data.length := by
        have h1 := hd.1
        rw [List.length_drop] at h1
        omega
      have h2 := (char2 (m1 + (s - 1))).mpr ⟨hlen, hd.2⟩
      omega
  have hge : m2 ≤ m1 + s := by
    by_contra h
    push_neg at h
    have hj := (char2 (m1 + s)).mp (by omega)
    have hsl : s < (data.drop m1).length := by
      rw [List.length_drop]
      omega
    have h2 := (charD s).mpr ⟨hsl, by rw [getSample_drop]; exact hj.2⟩
    omega
  omega

/-- Fold invariant for `build_full_time`: after `k` windows the cursor
sits at the accumulated boundary `t_lo + k*win`, the consumed index equals
`windowCount k`, and bucket `i` spans
`[windowCount i, windowCount (i+1))`. -/
theorem buildFullTime_invariant (data : List DataTimeStep) (win t_lo : ℚ)
    (hc0 : windowCount data t_lo win 0 = 0)
    (hstep : ∀ k idx, idx = windowCount data t_lo win k →
        idx + windowSpan data idx (t_lo + ((k : ℚ) + 1) * win)
          = windowCount data t_lo win (k + 1)) :
    ∀ k : ℕ,
      (((List.range k).foldl (buildFullTimeStep data win) (t_lo, 0, [], [])).1
          = t_lo + k * win)
      ∧ (((List.range k).foldl (buildFullTimeStep data win) (t_lo, 0, [], [])).2.1
          = windowCount data t_lo win k)
      ∧ (∀ i, i < k → ∃ b : Bucket,
          (((List.range k).foldl (buildFullTimeStep data win) (t_lo, 0, [], [])).2.2.1)[i]?
            = some b
          ∧ b.start = windowCount data t_lo win i
          ∧ b.stop = windowCount data t_lo win (i + 1)) := by
  intro k
  induction k with
  | zero =>
    refine ⟨by simp, by simpa using hc0.symm, ?_⟩
    intro i hi
    omega
  | succ k ih =>
    obtain ⟨ih1, ih2, ih3⟩ := ih
    have hblen : (((List.range k).foldl (buildFullTimeStep data win)
        (t_lo, 0, [], [])).2.2.1).length = k := by
      have h := buildFullTime_fold_len data win k (t_lo, 0, [], [])
      simpa using h.1
    rw [List.range_succ, List.foldl_append, List.foldl_cons, List.foldl_nil]
    set A := (List.range k).foldl (buildFullTimeStep data win) (t_lo, 0, [], []) with hA
    have hstep' := hstep k A.2.1 ih2
    have hw : A.1 + win = t_lo + ((k : ℚ) + 1) * win := by
      rw [ih1]
      ring
    constructor
    · show (buildFullTimeStep data win A k).1 = _
      unfold buildFullTimeStep
      dsimp only
      rw [hw]
      push_cast
      ring
    constructor
    · show (buildFullTimeStep data win A k).2.1 = _
      unfold buildFullTimeStep
      dsimp only
      rw [hw, ← hstep']
    · intro i hi
      rcases Nat.lt_or_ge i k with h | h
      · obtain ⟨b, hb, hb1, hb2⟩ := ih3 i h
        refine ⟨b, ?_, hb1, hb2⟩
        show ((buildFullTimeStep data win A k).2.2.1)[i]? = some b
        unfold buildFullTimeStep
        dsimp only
        rw [List.getElem?_append]
        rw [if_pos (by rw [hblen]; exact h)]
        exact hb
      · have hik : i = k := by omega
        subst hik
        show ∃ b, ((buildFullTimeStep data win A i).2.2.1)[i]? = some b
          ∧ b.start = windowCount data t_lo win i
          ∧ b.stop = windowCount data t_lo win (i + 1)
        unfold buildFullTimeStep
        dsimp only
        rw [hw]
        have hcat : ∀ (l : List Bucket) (x : Bucket), l.length = i →
            (l ++ [x])[i]? = some x := by
          intro l x hl
          rw [← hl]
          exact List.getElem?_concat_length _ _
        refine ⟨_, hcat _ _ hblen, ?_, ?_⟩
        · cases hr : List.range' A.2.1
              (windowSpan data A.2.1 (t_lo + ((i : ℚ) + 1) * win)) with
          | nil =>
            dsimp only
            cases ho : A.2.2.2.getLast? with
            | none =>
              dsimp only
              exact ih2
            | some prev =>
              dsimp only
              exact ih2
          | cons x xs =>
            dsimp only
            rw [foldExtremum_start]
            exact ih2
        · cases hr : List.range' A.2.1
              (windowSpan data A.2.1 (t_lo + ((i : ℚ) + 1) * win)) with
          | nil =>
            have hspan0 : windowSpan data A.2.1 (t_lo + ((i : ℚ) + 1) * win) = 0 :=
              List.range'_eq_nil.mp hr
            dsimp only
            cases ho : A.2.2.2.getLast? with
            | none =>
              dsimp only
              rw [← hstep']
              omega
            | some prev =>
              dsimp only
              rw [← hstep']
              omega
          | cons x xs =>
            dsimp only
            rw [foldExtremum_stop]
            rw [← hstep']

/-- C4 (amended): under the Time strategy with sorted input, the full
rebuild's buckets are the consecutive index ranges
`[windowCount i, windowCount (i+1))` delimited by the accumulated window
boundaries `t_first + i*win`; a sample index `j` lies in that range
exactly when `t_first + i*win ≤ t_j < t_first + (i+1)*win`.  The last
window does **not** absorb the trailing sample: in exact arithmetic the
final accumulated boundary equals `t_last`, the sample at `t_last` fails
the strict `<` test, and every bucket lies inside `[0, n-1)`. -/
theorem C4_time_window_semantics (st : Binner) (data : List DataTimeStep)
    (f l : DataTimeStep) (hf : data.head? = some f) (hl : data.getLast? = some l)
    (hs : data.Pairwise (fun a b => a.time ≤ b.time))
    (ht : 1 ≤ st.target) :
    ((build_full_time st data ((l.time - f.time) / (st.target : ℚ))).1.buckets).length
        = st.target
    ∧ (∀ i, i < st.target → ∃ b : Bucket,
        ((build_full_time st data ((l.time - f.time) / (st.target : ℚ))).1.buckets)[i]?
            = some b
        ∧ b.start = windowCount data f.time ((l.time - f.time) / (st.target : ℚ)) i
        ∧ b.stop = windowCount data f.time ((l.time - f.time) / (st.target : ℚ)) (i + 1))
    ∧ (∀ i j : ℕ, j < data.length →
        ((windowCount data f.time ((l.time - f.time) / (st.target : ℚ)) i ≤ j
            ∧ j < windowCount data f.time ((l.time - f.time) / (st.target : ℚ)) (i + 1))
          ↔ (f.time + (i : ℚ) * ((l.time - f.time) / (st.target : ℚ))
                ≤ (getSample data j).time
             ∧ (getSample data j).time
                < f.time + ((i : ℚ) + 1) * ((l.time - f.time) / (st.target : ℚ)))))
    ∧ windowCount data f.time ((l.time - f.time) / (st.target : ℚ)) st.target
        ≤ data.length - 1 := by
  set win := (l.time - f.time) / (st.target : ℚ) with hwin
  have hne : data ≠ [] := by
    intro h
    rw [h] at hf
    cases hf
  have hchar := takeWhile_count_char data hs
  have hfle : ∀ j, j < data.length → f.time ≤ (getSample data j).time := by
    cases data with
    | nil => exact absurd rfl hne
    | cons a tl =>
      have haf : a = f := by
        injection hf
      subst haf
      rw [List.pairwise_cons] at hs
      intro j hj
      cases j with
      | zero => exact le_refl _
      | succ k =>
        rw [getSample_cons_succ]
        have hkl : k < tl.length := by
          simp only [List.length_cons] at hj
          omega
        have hmem : getSample tl k ∈ tl := by
          unfold getSample
          rw [List.getD_eq_getElem?_getD, List.getElem?_eq_getElem hkl]
          exact List.getElem_mem hkl
        exact hs.1 _ hmem
  have hlast : getSample data (data.length - 1) = l := by
    rw [List.getLast?_eq_getElem?] at hl
    unfold getSample
    rw [List.getD_eq_getElem?_getD, hl]
    rfl
  have hn1 : 1 ≤ data.length := by
    cases data with
    | nil => exact absurd rfl hne
    | cons a tl => simp
  have hfl : f.time ≤ l.time := by
    have := hfle (data.length - 1) (by omega)
    rwa [hlast] at this
  have hw0 : 0 ≤ win := by
    rw [hwin]
    exact div_nonneg (by linarith) (Nat.cast_nonneg _)
  have hcnt0 : windowCount data f.time win 0 = 0 := by
    unfold windowCount
    cases data with
    | nil => rfl
    | cons a tl =>
      have haf : a = f := by injection hf
      subst haf
      rw [List.takeWhile_cons_of_neg (by
        simp only [Nat.cast_zero, zero_mul, add_zero]
        simp)]
      rfl
  have hstep : ∀ k idx, idx = windowCount data f.time win k →
      idx + windowSpan data idx (f.time + ((k : ℚ) + 1) * win)
        = windowCount data f.time win (k + 1) := by
    intro k idx hidx
    subst hidx
    have hc : f.time + (k : ℚ) * win ≤ f.time + ((k : ℚ) + 1) * win := by
      have : (k : ℚ) * win ≤ ((k : ℚ) + 1) * win :=
        mul_le_mul_of_nonneg_right (by linarith) hw0
      linarith
    have h := takeWhile_drop_count data hs (f.time + (k : ℚ) * win)
      (f.time + ((k : ℚ) + 1) * win) hc
    unfold windowCount windowSpan
    push_cast
    exact h
  have hinv := buildFullTime_invariant data win f.time hcnt0 hstep
  have hg0 : (getSample data 0).time = f.time := by
    cases data with
    | nil => exact absurd rfl hne
    | cons a tl =>
      have haf : a = f := by injection hf
      subst haf
      rfl
  refine ⟨build_full_time_buckets_len st data win, ?_, ?_, ?_⟩
  · intro i hi
    have h3 := (hinv st.target).2.2 i hi
    unfold build_full_time
    dsimp only
    rw [hg0]
    exact h3
  · intro i j hj
    have ci := hchar (f.time + (i : ℚ) * win) j
    have ci1 := hchar (f.time + ((i : ℚ) + 1) * win) j
    unfold windowCount
    constructor
    · rintro ⟨hge, hlt⟩
      have h2 : (getSample data j).time < f.time + ((i : ℚ) + 1) * win := by
        have := ci1.mp (by
          push_cast at hlt ⊢
          exact hlt)
        exact this.2
      have h1 : f.time + (i : ℚ) * win ≤ (getSample data j).time := by
        by_contra hcon
        push_neg at hcon
        have := ci.mpr ⟨hj, hcon⟩
        omega
      exact ⟨h1, h2⟩
    · rintro ⟨h1, h2⟩
      constructor
      · by_contra hcon
        push_neg at hcon
        have := ci.mp hcon
        linarith [this.2]
      · push_cast
        exact ci1.mpr ⟨hj, h2⟩
  · by_contra h
    push_neg at h
    have hchar2 := hchar (f.time + (st.target : ℚ) * win) (data.length - 1)
    have harg : data.length - 1
        < (data.takeWhile (fun p => p.time < f.time + (st.target : ℚ) * win)).length := by
      unfold windowCount at h
      omega
    have hlt := (hchar2.mp harg).2
    rw [hlast] at hlt
    have htQ : (st.target : ℚ) ≠ 0 := by
      simp only [ne_eq, Nat.cast_eq_zero]
      omega
    have : f.time + (st.target : ℚ) * win = l.time := by
      rw [hwin]
      field_simp
    linarith

/-- C4 (counterexample): Time-strategy full rebuild on samples at times
`0,1,2,3` with target 2 (`win = 3/2`): the buckets cover index ranges
`[0,2)` and `[2,3)` — the last window does **not** absorb the trailing
sample, index 3 (time `3 = t_last`) is in no bucket, refuting "every
input sample is covered by some bucket".  (All values are dyadic, so f64
evaluates this input exactly.) -/
theorem C4_counterexample :
    ((build_full_time { Binner.new Strategy.Time with target := 2 }
        [⟨0,0,0⟩, ⟨1,1,1⟩, ⟨2,2,2⟩, ⟨3,3,3⟩]
        (((3 : ℚ) - 0) / 2)).1.buckets.map (fun b => (b.start, b.stop)))
      = [(0, 2), (2, 3)]
    ∧ ([⟨0,0,0⟩, ⟨1,1,1⟩, ⟨2,2,2⟩, (⟨3,3,3⟩ : DataTimeStep)] : List DataTimeStep).length = 4
    ∧ (∀ p ∈ [(0, 2), (2, 3)], ¬((p : ℕ × ℕ).1 ≤ 3 ∧ 3 < p.2)) :=
  ⟨by norm_num [build_full_time, buildFullTimeStep, windowSpan, getSample,
     List.range_succ, List.range', Binner.new, foldExtremum],
   by decide, by decide⟩

/-- C4 (witness): the amended window-semantics theorem at samples with
times `0,1,2,3` and target 2. -/
theorem C4_time_window_semantics_witness :
    (([⟨0,0,0⟩, ⟨1,1,1⟩, ⟨2,2,2⟩, (⟨3,3,3⟩ : DataTimeStep)] : List DataTimeStep).head?
        = some ⟨0,0,0⟩)
    ∧ (([⟨0,0,0⟩, ⟨1,1,1⟩, ⟨2,2,2⟩, (⟨3,3,3⟩ : DataTimeStep)] : List DataTimeStep).getLast?
        = some ⟨3,3,3⟩)
    ∧ ([⟨0,0,0⟩, ⟨1,1,1⟩, ⟨2,2,2⟩, (⟨3,3,3⟩ : DataTimeStep)] : List DataTimeStep).Pairwise
        (fun a b => a.time ≤ b.time)
    ∧ 1 ≤ ({ Binner.new Strategy.Time with target := 2 } : Binner).target
    ∧ (((build_full_time { Binner.new Strategy.Time with target := 2 }
          [⟨0,0,0⟩, ⟨1,1,1⟩, ⟨2,2,2⟩, ⟨3,3,3⟩]
          (((3 : ℚ) - 0) / ((2 : ℕ) : ℚ))).1.buckets).length = 2
      ∧ (∀ i, i < 2 → ∃ b : Bucket,
          ((build_full_time { Binner.new Strategy.Time with target := 2 }
              [⟨0,0,0⟩, ⟨1,1,1⟩, ⟨2,2,2⟩, ⟨3,3,3⟩]
              (((3 : ℚ) - 0) / ((2 : ℕ) : ℚ))).1.buckets)[i]? = some b
          ∧ b.start = windowCount [⟨0,0,0⟩, ⟨1,1,1⟩, ⟨2,2,2⟩, ⟨3,3,3⟩] 0
              (((3 : ℚ) - 0) / ((2 : ℕ) : ℚ)) i
          ∧ b.stop = windowCount [⟨0,0,0⟩, ⟨1,1,1⟩, ⟨2,2,2⟩, ⟨3,3,3⟩] 0
              (((3 : ℚ) - 0) / ((2 : ℕ) : ℚ)) (i + 1))
      ∧ (∀ i j : ℕ, j < 4 →
          ((windowCount [⟨0,0,0⟩, ⟨1,1,1⟩, ⟨2,2,2⟩, ⟨3,3,3⟩] 0
              (((3 : ℚ) - 0) / ((2 : ℕ) : ℚ)) i ≤ j
            ∧ j < windowCount [⟨0,0,0⟩, ⟨1,1,1⟩, ⟨2,2,2⟩, ⟨3,3,3⟩] 0
              (((3 : ℚ) - 0) / ((2 : ℕ) : ℚ)) (i + 1))
          ↔ ((0 : ℚ) + (i : ℚ) * (((3 : ℚ) - 0) / ((2 : ℕ) : ℚ))
                ≤ (getSample [⟨0,0,0⟩, ⟨1,1,1⟩, ⟨2,2,2⟩, ⟨3,3,3⟩] j).time
             ∧ (getSample [⟨0,0,0⟩, ⟨1,1,1⟩, ⟨2,2,2⟩, ⟨3,3,3⟩] j).time
                < (0 : ℚ) + ((i : ℚ) + 1) * (((3 : ℚ) - 0) / ((2 : ℕ) : ℚ)))))
      ∧ windowCount [⟨0,0,0⟩, ⟨1,1,1⟩, ⟨2,2,2⟩, ⟨3,3,3⟩] 0
          (((3 : ℚ) - 0) / ((2 : ℕ) : ℚ)) 2 ≤ 4 - 1) :=
  ⟨rfl, by decide, by decide, by decide,
   C4_time_window_semantics { Binner.new Strategy.Time with target := 2 }
     [⟨0,0,0⟩, ⟨1,1,1⟩, ⟨2,2,2⟩, ⟨3,3,3⟩] ⟨0,0,0⟩ ⟨3,3,3⟩
     rfl (by decide) (by decide) (by decide)⟩

theorem rustRound_natCast (m : ℕ) : rustRound ((m : ℚ)) = (m : ℤ) := by
  unfold rustRound
  rw [if_pos (by positivity)]
  rw [Int.floor_eq_iff]
  constructor
  · push_cast
    linarith
  · push_cast
    linarith

theorem mapY_ratio_le_zero (cfg : Config) (y : ℚ)
    (h : (y - cfg.y_min) / (cfg.y_max - cfg.y_min) ≤ 0) :
    mapY cfg y = cfg.y_chars * VR - 1 := by
  unfold mapY
  dsimp only
  rw [max_eq_right h]
  have hmin : min (0 : ℚ) 1 = 0 := by norm_num
  rw [hmin, zero_mul]
  have h0 : rustRound 0 = 0 := by
    unfold rustRound
    rw [if_pos le_rfl, zero_add]
    rw [Int.floor_eq_iff]
    norm_num
  rw [h0]
  rfl

theorem mapY_ratio_ge_one (cfg : Config) (y : ℚ)
    (h : 1 ≤ (y - cfg.y_min) / (cfg.y_max - cfg.y_min)) :
    mapY cfg y = 0 := by
  unfold mapY
  dsimp only
  have hmax : (1 : ℚ) ≤ max ((y - cfg.y_min) / (cfg.y_max - cfg.y_min)) 0 :=
    le_trans h (le_max_left _ _)
  rw [min_eq_right hmax, one_mul, rustRound_natCast, Int.toNat_natCast,
    Nat.sub_self]

/-- C5: the rasterizer's value-to-row map.  For `y_lo < y_hi` and
`y_chars ≥ 1`: every in-range value lands in `[0, y_chars*4 - 1]` (rows
are naturals, so only the upper bound is substantive), `y = y_lo` maps to
the bottom-most row `y_chars*4 - 1`, `y = y_hi` maps to the top-most
row 0, and out-of-range values are clamped to the corresponding endpoint
row rather than rejected. -/
theorem C5_rasterizer_mapping (cfg : Config) (hy : cfg.y_min < cfg.y_max)
    (hc : 0 < cfg.y_chars) :
    (∀ y : ℚ, cfg.y_min ≤ y → y ≤ cfg.y_max → mapY cfg y ≤ cfg.y_chars * VR - 1)
    ∧ mapY cfg cfg.y_min = cfg.y_chars * VR - 1
    ∧ mapY cfg cfg.y_max = 0
    ∧ (∀ y : ℚ, y ≤ cfg.y_min → mapY cfg y = mapY cfg cfg.y_min)
    ∧ (∀ y : ℚ, cfg.y_max ≤ y → mapY cfg y = mapY cfg cfg.y_max) := by
  have hspan : (0 : ℚ) < cfg.y_max - cfg.y_min := sub_pos.mpr hy
  have hlo : ∀ y : ℚ, y ≤ cfg.y_min →
      (y - cfg.y_min) / (cfg.y_max - cfg.y_min) ≤ 0 := by
    intro y h
    exact div_nonpos_iff.mpr (Or.inr ⟨sub_nonpos.mpr h, le_of_lt hspan⟩)
  have hhi : ∀ y : ℚ, cfg.y_max ≤ y →
      1 ≤ (y - cfg.y_min) / (cfg.y_max - cfg.y_min) := by
    intro y h
    rw [le_div_iff₀ hspan, one_mul]
    linarith
  refine ⟨?_, ?_, ?_, ?_, ?_⟩
  · intro y _ _
    exact Nat.sub_le _ _
  · exact mapY_ratio_le_zero cfg _ (hlo _ le_rfl)
  · exact mapY_ratio_ge_one cfg _ (hhi _ le_rfl)
  · intro y h
    rw [mapY_ratio_le_zero cfg _ (hlo _ h), mapY_ratio_le_zero cfg _ (hlo _ le_rfl)]
  · intro y h
    rw [mapY_ratio_ge_one cfg _ (hhi _ h), mapY_ratio_ge_one cfg _ (hhi _ le_rfl)]

/-- C5 (witness): the mapping theorem at `y_range = (0, 10)`, `y_chars = 1`
(4 pixel rows: value 0 → row 3, value 10 → row 0). -/
theorem C5_rasterizer_mapping_witness :
    ((0 : ℚ) < 10) ∧ (0 < 1) ∧
    ((∀ y : ℚ, (0 : ℚ) ≤ y → y ≤ 10 →
        mapY ⟨[], none, 0, 10, 1, 1, [], none⟩ y ≤ 1 * VR - 1)
      ∧ mapY ⟨[], none, 0, 10, 1, 1, [], none⟩ 0 = 1 * VR - 1
      ∧ mapY ⟨[], none, 0, 10, 1, 1, [], none⟩ 10 = 0
      ∧ (∀ y : ℚ, y ≤ 0 → mapY ⟨[], none, 0, 10, 1, 1, [], none⟩ y
          = mapY ⟨[], none, 0, 10, 1, 1, [], none⟩ 0)
      ∧ (∀ y : ℚ, 10 ≤ y → mapY ⟨[], none, 0, 10, 1, 1, [], none⟩ y
          = mapY ⟨[], none, 0, 10, 1, 1, [], none⟩ 10)) :=
  ⟨by norm_num, by norm_num,
   C5_rasterizer_mapping ⟨[], none, 0, 10, 1, 1, [], none⟩ (by norm_num) (by norm_num)⟩

end BrailleGraph
